import Mathlib

/-!
Verification development for the `interpreter` repository: a tree-walking
interpreter for a small dynamically typed language (scanner, recursive-descent
parser, evaluator with a lexically scoped environment chain).

The Rust sources are shallowly embedded:
* `token.rs` : `TokenType`, `Token`, `Expr`, `Stmt`, `Value` and their
  `evaluate` / `Display` implementations (namespace `Interp`).
* `env.rs`   : `Env` with `define` / `assign` / `get`.  The runtime threads
  the environment through `Arc<RwLock<Env>>` shared-mutable handles; that
  interior mutability is rendered as explicit state passing: every evaluation
  step returns the updated environment chain.
* `parser.rs`: `Parser` (namespace `Parse`), embedded with explicit state and
  fuel for the mutual recursion.
* `scanner.rs`: `Scanner::tokenize` (namespace `Scan`).

Rust `f64` is modelled by `F64`: a finite rational together with `nan`,
`inf`, `neginf`.  IEEE equality and comparisons (NaN unequal and incomparable
to everything, including itself) are modelled faithfully; arithmetic uses
exact rationals in the finite case (no rounding), which no claim depends on.
Runtime errors `eprintln!(msg); Err(ExitCode::from(n))` are modelled as an
error value carrying the message and the exit code.  Writes to stdout are not
modelled (no claim mentions stdout contents).
-/

namespace Interp

/-- Model of Rust `f64` restricted to what the interpreter observes:
a finite value is kept as an exact rational; `nan`, `inf`, `neginf`
are the special values. -/
inductive F64 where
  | finite (q : ℚ)
  | nan
  | inf
  | neginf
deriving DecidableEq, Repr

/-- IEEE equality on doubles (`f64::eq`): NaN is unequal to everything,
including itself; finite values compare exactly. -/
def F64.ieeeEq : F64 → F64 → Bool
  | .finite a, .finite b => a == b
  | .inf, .inf => true
  | .neginf, .neginf => true
  | _, _ => false

/-- IEEE `<` on doubles: any comparison involving NaN is false. -/
def F64.ieeeLt : F64 → F64 → Bool
  | .finite a, .finite b => a < b
  | .finite _, .inf => true
  | .neginf, .finite _ => true
  | .neginf, .inf => true
  | _, _ => false

/-- IEEE `<=` on doubles: any comparison involving NaN is false. -/
def F64.ieeeLe : F64 → F64 → Bool
  | .finite a, .finite b => a ≤ b
  | .finite _, .inf => true
  | .neginf, .finite _ => true
  | .neginf, .inf => true
  | .inf, .inf => true
  | .neginf, .neginf => true
  | _, _ => false

/-- `f64` addition (exact in the finite case). -/
def F64.add : F64 → F64 → F64
  | .finite a, .finite b => .finite (a + b)
  | .nan, _ => .nan
  | _, .nan => .nan
  | .inf, .neginf => .nan
  | .neginf, .inf => .nan
  | .inf, _ => .inf
  | _, .inf => .inf
  | .neginf, _ => .neginf
  | _, .neginf => .neginf

/-- `f64` negation. -/
def F64.neg : F64 → F64
  | .finite a => .finite (-a)
  | .nan => .nan
  | .inf => .neginf
  | .neginf => .inf

/-- `f64` subtraction. -/
def F64.sub (a b : F64) : F64 := a.add b.neg

/-- `f64` multiplication (exact in the finite case; `0 * inf = nan`). -/
def F64.mul : F64 → F64 → F64
  | .finite a, .finite b => .finite (a * b)
  | .nan, _ => .nan
  | _, .nan => .nan
  | .finite a, .inf => if a = 0 then .nan else if 0 < a then .inf else .neginf
  | .finite a, .neginf => if a = 0 then .nan else if 0 < a then .neginf else .inf
  | .inf, .finite b => if b = 0 then .nan else if 0 < b then .inf else .neginf
  | .neginf, .finite b => if b = 0 then .nan else if 0 < b then .neginf else .inf
  | .inf, .inf => .inf
  | .inf, .neginf => .neginf
  | .neginf, .inf => .neginf
  | .neginf, .neginf => .inf

/-- `f64` division (exact in the finite case; division by zero yields
`nan` or signed infinity, no trap; the model has no negative zero). -/
def F64.div : F64 → F64 → F64
  | .finite a, .finite b =>
      if b = 0 then (if a = 0 then .nan else if 0 < a then .inf else .neginf)
      else .finite (a / b)
  | .nan, _ => .nan
  | _, .nan => .nan
  | .finite _, .inf => .finite 0
  | .finite _, .neginf => .finite 0
  | .inf, .finite b => if 0 ≤ b then .inf else .neginf
  | .neginf, .finite b => if 0 ≤ b then .neginf else .inf
  | _, _ => .nan

/-- Source: `token.rs`, `enum Value`. -/
inductive Value where
  | number (n : F64)
  | boolean (b : Bool)
  | string (s : String)
  | nil
deriving DecidableEq, Repr

/-- Source: `token.rs`, `#[derive(PartialEq)]` on `Value`: variant-wise
equality, `Number` payloads by IEEE `f64` equality, `String` payloads by
byte sequence, `Boolean` by value, `Nil == Nil`. -/
def Value.beq : Value → Value → Bool
  | .number a, .number b => F64.ieeeEq a b
  | .boolean a, .boolean b => a == b
  | .string a, .string b => a == b
  | .nil, .nil => true
  | _, _ => false

/-- Source: `token.rs`, `enum TokenType`. -/
inductive TokenType where
  | leftParen | rightParen | leftBrace | rightBrace
  | comma | dot | minus | plus | semiColon | star
  | equal | equalEqual | bang | bangEqual
  | less | lessEqual | greater | greaterEqual | slash
  | stringLit (s : String)
  | numberLit (n : F64)
  | identifier
  | andKw | classKw | elseKw | falseKw | forKw | funKw | ifKw | nilKw
  | orKw | printKw | returnKw | superKw | thisKw | trueKw | varKw | whileKw
  | eof
deriving DecidableEq, Repr

/-- Source: `token.rs`, `#[derive(PartialEq)]` on `TokenType` (used by the
parser through `check`): same variant, and literal payloads equal (`Number`
by IEEE `f64` equality). -/
def TokenType.beq : TokenType → TokenType → Bool
  | .stringLit a, .stringLit b => a == b
  | .numberLit a, .numberLit b => F64.ieeeEq a b
  | a, b => decide (a = b)

/-- Source: `token.rs`, `struct Token`. -/
structure Token where
  token_type : TokenType
  lexeme : String
  line : Nat
deriving DecidableEq, Repr

/-- A runtime error: the diagnostic written to stderr by `eprintln!`
together with the process exit code produced via `ExitCode::from`. -/
structure RErr where
  msg : String
  code : Nat
deriving DecidableEq, Repr

/-- The apostrophe character, kept out of string literals. -/
def sq : String := String.singleton (Char.ofNat 39)

/-- Diagnostic of `env.rs`: `Undefined variable '<name>'.` -/
def undefinedVarMsg (name : String) : String :=
  "Undefined variable " ++ sq ++ name ++ sq ++ "."

/-- A scope's `HashMap<String, Value>`, modelled as an association list
(the interpreter only uses `get` / `contains_key` / `insert`, none of which
observe iteration order). -/
abbrev Frame := List (String × Value)

/-- `HashMap::get`. -/
def lookupA : Frame → String → Option Value
  | [], _ => none
  | (k, w) :: rest, n => if k = n then some w else lookupA rest n

/-- `HashMap::contains_key`. -/
def containsA (f : Frame) (n : String) : Bool :=
  (lookupA f n).isSome

/-- `HashMap::insert`: replace the value of an existing key, else add the
key. -/
def upsert : Frame → String → Value → Frame
  | [], n, v => [(n, v)]
  | (k, w) :: rest, n, v =>
      if k = n then (k, v) :: rest else (k, w) :: upsert rest n v

/-- Source: `env.rs`, `struct Env { values, enclosing }`: one scope plus an
optional enclosing scope.  The Rust runtime hands environments around as
`Arc<RwLock<Env>>`; sharing of the enclosing scope is modelled by state
passing (each operation returns the updated chain). -/
inductive Env where
  | mk (values : Frame) (enclosing : Option Env)

/-- Source: `env.rs`, `Env::new`. -/
def Env.new : Env := .mk [] none

/-- Source: `env.rs`, `Env::with_enclosing`: a fresh empty scope in front of
the given chain. -/
def Env.with_enclosing (enclosing : Env) : Env := .mk [] (some enclosing)

/-- Source: `env.rs`, `Env::define`: insert into the current scope. -/
def Env.define : Env → String → Value → Env
  | .mk vs enc, n, v => .mk (upsert vs n v) enc

/-- Source: `env.rs`, `Env::assign`: rewrite the binding in the innermost
scope that has one, else recurse outward, else report
`Undefined variable '<name>'.` with exit code 70. -/
def Env.assign : Env → String → Value → Except RErr Env
  | .mk vs enc, n, v =>
      if containsA vs n then .ok (.mk (upsert vs n v) enc)
      else
        match enc with
        | some e => (Env.assign e n v).map (fun e2 => .mk vs (some e2))
        | none => .error ⟨undefinedVarMsg n, 70⟩

/-- Source: `env.rs`, `Env::get`: read the innermost binding, else recurse
outward, else report `Undefined variable '<name>'.` with exit code 70. -/
def Env.get : Env → String → Except RErr Value
  | .mk vs enc, n =>
      match lookupA vs n with
      | some v => .ok v
      | none =>
          match enc with
          | some e => Env.get e n
          | none => .error ⟨undefinedVarMsg n, 70⟩

/-- The scope chain as a list of frames, innermost first. -/
def Env.frames : Env → List Frame
  | .mk vs none => [vs]
  | .mk vs (some e) => vs :: Env.frames e

/-- The enclosing chain of an environment built by `with_enclosing`
(the default is never reached by the evaluator, which only pops scopes it
pushed). -/
def Env.popScope : Env → Env → Env
  | .mk _ (some e), _ => e
  | .mk _ none, d => d

mutual
/-- Source: `token.rs`, `enum Expr`. -/
inductive Expr where
  | binary (left : Expr) (op : Token) (right : Expr)
  | literal (tok : Token)
  | unary (op : Token) (e : Expr)
  | group (s : Stmt)
deriving Repr

/-- Source: `token.rs`, `enum Stmt`. -/
inductive Stmt where
  | block (ss : List Stmt)
  | print (s : Stmt)
  | ifS (cond : Stmt) (thenB : Stmt) (elseB : Option Stmt)
  | declare (name : String) (s : Stmt)
  | assign (name : String) (s : Stmt)
  | expr (e : Expr)
deriving Repr
end

/-- Source: `token.rs`, `Expr::evaluate`, the `Expr::Binary` match on
`(operator.token_type, left, right)`, arms in source order. -/
def evalBinaryOp : TokenType → Value → Value → Except RErr Value
  | .orKw, l, r =>
      match l, r with
      | .boolean true, _ | .number _, _ | .string _, _ => .ok l
      | _, .boolean true | _, .number _ | _, .string _ => .ok r
      | _, .nil => .ok (.boolean false)
      | _, _ => .ok (.boolean false)
  | .plus, .number a, .number b => .ok (.number (a.add b))
  | .plus, .string a, .string b => .ok (.string (a ++ b))
  | .plus, _, _ => .error ⟨"Operands must be two numbers or two strings.", 70⟩
  | .minus, .number a, .number b => .ok (.number (a.sub b))
  | .star, .number a, .number b => .ok (.number (a.mul b))
  | .slash, .number a, .number b => .ok (.number (a.div b))
  | .greater, .number a, .number b => .ok (.boolean (F64.ieeeLt b a))
  | .greaterEqual, .number a, .number b => .ok (.boolean (F64.ieeeLe b a))
  | .less, .number a, .number b => .ok (.boolean (F64.ieeeLt a b))
  | .lessEqual, .number a, .number b => .ok (.boolean (F64.ieeeLe a b))
  | .minus, _, _ | .star, _, _ | .slash, _, _ | .greater, _, _
  | .greaterEqual, _, _ | .less, _, _ | .lessEqual, _, _ =>
      .error ⟨"Operand must be a number.", 70⟩
  | .equalEqual, l, r => .ok (.boolean (Value.beq l r))
  | .bangEqual, l, r => .ok (.boolean (!Value.beq l r))
  | _, _, _ => .error ⟨"Unsupported binary expression.", 65⟩

/-- Source: `token.rs`, `Expr::evaluate`, the `Expr::Unary` match on the
operator after the operand has been evaluated. -/
def evalUnaryOp : TokenType → Value → Except RErr Value
  | .minus, v =>
      match v with
      | .number n => .ok (.number n.neg)
      | _ => .error ⟨"Operand must be a number.", 70⟩
  | .bang, v =>
      match v with
      | .boolean b => .ok (.boolean (!b))
      | .number _ => .ok (.boolean false)
      | .nil => .ok (.boolean true)
      | _ => .error ⟨"Operand must be a number or boolean.", 65⟩
  | _, _ => .error ⟨"Unsupported unary expression.", 65⟩

mutual
/-- Source: `token.rs`, `Expr::evaluate`.  Both operands of a binary
expression are evaluated (left first) before the operator dispatch; `Group`
evaluates its statement against the same environment. -/
def Expr.evaluate : Expr → Env → Except RErr (Value × Env)
  | .binary l op r, env => do
      let (lv, env1) ← Expr.evaluate l env
      let (rv, env2) ← Expr.evaluate r env1
      (evalBinaryOp op.token_type lv rv).map (fun v => (v, env2))
  | .group s, env => Stmt.evaluate s env
  | .literal tok, env =>
      match tok.token_type with
      | .numberLit n => .ok (.number n, env)
      | .stringLit s => .ok (.string s, env)
      | .trueKw => .ok (.boolean true, env)
      | .falseKw => .ok (.boolean false, env)
      | .nilKw => .ok (.nil, env)
      | .identifier => (Env.get env tok.lexeme).map (fun v => (v, env))
      | _ => .error ⟨"Unsupported literal expression.", 65⟩
  | .unary op e, env => do
      let (v, env1) ← Expr.evaluate e env
      (evalUnaryOp op.token_type v).map (fun w => (w, env1))

/-- Source: `token.rs`, `Stmt::evaluate`.  A block pushes a fresh scope via
`Env::with_enclosing` onto the current chain, runs its statements against
it, and afterwards execution continues with the (possibly mutated) enclosing
chain; printing is not modelled beyond the evaluation of the operand. -/
def Stmt.evaluate : Stmt → Env → Except RErr (Value × Env)
  | .block ss, env => do
      let benv ← evalStmts ss (Env.with_enclosing env)
      .ok (.nil, benv.popScope env)
  | .print s, env => do
      let (_, env1) ← Stmt.evaluate s env
      .ok (.nil, env1)
  | .ifS c t e, env => do
      let (cv, env1) ← Stmt.evaluate c env
      match cv with
      | .boolean true | .number _ | .string _ => Stmt.evaluate t env1
      | .boolean false | .nil =>
          match e with
          | some eb => Stmt.evaluate eb env1
          | none => .ok (.nil, env1)
  | .declare x s, env => do
      let (v, env1) ← Stmt.evaluate s env
      .ok (.nil, Env.define env1 x v)
  | .assign x s, env => do
      let (v, env1) ← Stmt.evaluate s env
      (Env.assign env1 x v).map (fun env2 => (v, env2))
  | .expr e, env => Expr.evaluate e env

/-- The statement loop of `main.rs` `run`: statements in order, aborting on
the first error. -/
def evalStmts : List Stmt → Env → Except RErr Env
  | [], env => .ok env
  | s :: rest, env => do
      let (_, env1) ← Stmt.evaluate s env
      evalStmts rest env1
end

/-- Digit characters of a natural number, padded on the left with zeros to
width `k`. -/
def padLeftZeros (k : Nat) (s : String) : String :=
  String.mk (List.replicate (k - s.length) (Char.ofNat 48)) ++ s

/-- The smallest power of ten that clears the denominator, when the rational
has a terminating decimal expansion (always the case for scanned literals). -/
def decPow (q : ℚ) : Option Nat :=
  (List.range 65).find? (fun k => (q * (10 : ℚ) ^ k).den = 1)

/-- Rust `{}` `Display` for a finite double holding this rational: integral
values print with no fractional part, others print their (shortest,
terminating) decimal expansion.  The `none` fallback cannot arise from
scanned literals. -/
def fmtRat (q : ℚ) : String :=
  if q.den = 1 then toString q.num
  else
    match decPow q with
    | some k =>
        let n := (q * (10 : ℚ) ^ k).num
        let m := n.natAbs
        let ip := m / 10 ^ k
        let fp := m % 10 ^ k
        (if n < 0 then "-" else "") ++ toString ip ++ "." ++
          padLeftZeros k (toString fp)
    | none => toString q.num ++ "/" ++ toString q.den

/-- Rust `{}` `Display` for `f64` as used by `Display for Expr` and
`Display for Value` in `token.rs`. -/
def fmtF64 : F64 → String
  | .finite q => fmtRat q
  | .nan => "NaN"
  | .inf => "inf"
  | .neginf => "-inf"

mutual
/-- Source: `token.rs`, `impl Display for Expr`: fully parenthesized prefix;
number literals use Rust `{}` float formatting, string literals print their
contents, all other literal tokens print their lexeme. -/
def Expr.fmt : Expr → String
  | .binary l op r =>
      "(" ++ op.lexeme ++ " " ++ Expr.fmt l ++ " " ++ Expr.fmt r ++ ")"
  | .literal tok =>
      match tok.token_type with
      | .stringLit s => s
      | .numberLit n => fmtF64 n
      | _ => tok.lexeme
  | .unary op e => "(" ++ op.lexeme ++ " " ++ Expr.fmt e ++ ")"
  | .group s => "(group " ++ Stmt.fmt s ++ ")"

/-- Source: `token.rs`, `impl Display for Stmt`. -/
def Stmt.fmt : Stmt → String
  | .block ss => "\x7b\n" ++ Stmt.fmtList ss ++ "\x7d\n"
  | .print s => "print " ++ Stmt.fmt s
  | .ifS c t e =>
      "if " ++ Stmt.fmt c ++ " " ++ Stmt.fmt t ++
        (match e with
         | some eb => " else " ++ Stmt.fmt eb
         | none => "")
  | .declare v s => "var " ++ v ++ " = " ++ Stmt.fmt s
  | .assign v s => v ++ " = " ++ Stmt.fmt s
  | .expr e => Expr.fmt e

/-- The body lines of a block in `impl Display for Stmt`: each statement
indented and newline-terminated. -/
def Stmt.fmtList : List Stmt → String
  | [] => ""
  | s :: rest => "   " ++ Stmt.fmt s ++ "\n" ++ Stmt.fmtList rest
end

end Interp

namespace Parse

open Interp

/-- Out-of-range default token.  `parser.rs` indexes `self.tokens` directly
and relies on the trailing `Eof` sentinel to stay in range; the model
returns this default where Rust would panic. -/
def defTok : Token := ⟨.eof, "", 0⟩

/-- Source: `parser.rs`, `struct Parser` plus its `ErrorReporter`: the token
slice, the cursor, the had-error flag, and the diagnostics written to
stderr. -/
structure PState where
  tokens : List Token
  current : Nat
  hadError : Bool
  diags : List String

/-- Source: `parser.rs`, `Parser::peek`. -/
def PState.peek (st : PState) : Token := st.tokens.getD st.current defTok

/-- Source: `parser.rs`, `Parser::previous`. -/
def PState.previous (st : PState) : Token :=
  st.tokens.getD (st.current - 1) defTok

/-- Source: `parser.rs`, `Parser::is_eof`. -/
def PState.isEof (st : PState) : Bool :=
  TokenType.beq st.peek.token_type .eof

/-- Source: `parser.rs`, `Parser::advance`. -/
def PState.advance (st : PState) : Token × PState :=
  let st' := if st.isEof then st else { st with current := st.current + 1 }
  (st'.previous, st')

/-- Source: `parser.rs`, `Parser::retreat`. -/
def PState.retreat (st : PState) : PState :=
  if st.current > 0 then { st with current := st.current - 1 } else st

/-- Source: `parser.rs`, `Parser::check`. -/
def PState.check (st : PState) (t : TokenType) : Bool :=
  if st.isEof then false else TokenType.beq st.peek.token_type t

/-- Source: `parser.rs`, `ErrorReporter::error` / `report`: emit
`[line N] Error at '<lexeme>': <message>` and set the had-error flag. -/
def PState.reportErr (st : PState) (line : Nat) (tok msg : String) : PState :=
  { st with
    hadError := true
    diags := st.diags ++
      ["[line " ++ toString line ++ "] Error at " ++ sq ++ tok ++ sq ++ ": "
        ++ msg] }

/-- Source: `parser.rs`, `Parser::match_tokens`. -/
def PState.matchTokens (st : PState) (types : List TokenType) :
    Bool × PState :=
  match types with
  | [] => (false, st)
  | t :: rest =>
      if st.check t then
        let (_, st') := st.advance
        (true, st')
      else st.matchTokens rest

/-- Source: `parser.rs`, `Parser::consume`. -/
def PState.consume (st : PState) (t : TokenType) (msg : String) :
    Except Unit Token × PState :=
  if st.check t then
    let (tok, st') := st.advance
    (.ok tok, st')
  else
    let (tok, st') := st.advance
    (.error (), st'.reportErr tok.line tok.lexeme msg)

/-- Diagnostic `Expect '}' .` of `Parser::block_statement`. -/
def expectRBraceMsg : String := "Expect " ++ sq ++ "\x7d" ++ sq ++ " ."

/-- Diagnostic `Expect '(' after 'if'.` of `Parser::if_statement`. -/
def expectLParenIfMsg : String :=
  "Expect " ++ sq ++ "(" ++ sq ++ " after " ++ sq ++ "if" ++ sq ++ "."

/-- Diagnostic `Expect ')' after if condition.` of `Parser::if_statement`. -/
def expectRParenIfMsg : String :=
  "Expect " ++ sq ++ ")" ++ sq ++ " after if condition."

/-- Diagnostic `Expect ';' after expression.` of
`Parser::expression_statement`. -/
def expectSemiMsg : String :=
  "Expect " ++ sq ++ ";" ++ sq ++ " after expression."

/-!
The mutually recursive `Parser` methods, embedded with explicit fuel (the
first argument) to drive the mutual recursion and the `while` loops; out of
fuel returns the same shape as a parse error but with the state untouched,
and every concrete run below is supplied ample fuel.  `parser.rs` also has
`while_statement` / `for_statement` branches constructing `Stmt::While` and
`Stmt::For` — constructors that do not exist in `token.rs`'s `Stmt` (the two
files are from different revisions of the repository, and the crate as given
does not compile); those two branches are not modelled, and no verified
input contains a `while` or `for` token.
-/

set_option maxHeartbeats 3200000 in
mutual
/-- Source: `parser.rs`, `Parser::parse_statement` (minus the dead
`While`/`For` branches, see above), dispatch in source order. -/
def parseStatement : Nat → PState → Except Unit Stmt × PState
  | 0, st => (.error (), st)
  | fuel + 1, st =>
      let (m, st) := st.matchTokens [.leftBrace]
      if m then blockStatement fuel st
      else
        let (m, st) := st.matchTokens [.printKw]
        if m then printStatement fuel st
        else
          let (m, st) := st.matchTokens [.ifKw]
          if m then ifStatement fuel st
          else
            let (m, st) := st.matchTokens [.varKw]
            if m then declareStatement fuel st
            else
              let (m, st) := st.matchTokens [.identifier]
              if m then assignStatement fuel st
              else expressionStatement fuel st
  termination_by structural fuel => fuel

/-- Source: `parser.rs`, `Parser::block_statement`: parse statements until
`}` or end of input, consume the `}`, and discard an empty block by
returning `Err(())` without reporting anything. -/
def blockStatement : Nat → PState → Except Unit Stmt × PState
  | 0, st => (.error (), st)
  | fuel + 1, st =>
      match blockLoop fuel st [] with
      | (.error e, st) => (.error e, st)
      | (.ok stmts, st) =>
          match st.consume .rightBrace expectRBraceMsg with
          | (.error e, st) => (.error e, st)
          | (.ok _, st) =>
              if stmts.isEmpty then (.error (), st)
              else (.ok (.block stmts), st)
  termination_by structural fuel => fuel

/-- The `while !check(RightBrace) && !is_eof` loop of
`Parser::block_statement`. -/
def blockLoop : Nat → PState → List Stmt → Except Unit (List Stmt) × PState
  | 0, st, _ => (.error (), st)
  | fuel + 1, st, acc =>
      if !st.check .rightBrace && !st.isEof then
        match parseStatement fuel st with
        | (.ok s, st) => blockLoop fuel st (acc ++ [s])
        | (.error e, st) => (.error e, st)
      else (.ok acc, st)
  termination_by structural fuel => fuel

/-- Source: `parser.rs`, `Parser::print_statement`. -/
def printStatement : Nat → PState → Except Unit Stmt × PState
  | 0, st => (.error (), st)
  | fuel + 1, st =>
      match parseStatement fuel st with
      | (.error e, st) => (.error e, st)
      | (.ok s, st) =>
          if TokenType.beq st.peek.token_type .semiColon then
            match st.consume .semiColon "" with
            | (.error e, st) => (.error e, st)
            | (.ok _, st) => (.ok (.print s), st)
          else (.ok (.print s), st)
  termination_by structural fuel => fuel

/-- Source: `parser.rs`, `Parser::if_statement`. -/
def ifStatement : Nat → PState → Except Unit Stmt × PState
  | 0, st => (.error (), st)
  | fuel + 1, st =>
      match st.consume .leftParen expectLParenIfMsg with
      | (.error e, st) => (.error e, st)
      | (.ok _, st) =>
          match parseStatement fuel st with
          | (.error e, st) => (.error e, st)
          | (.ok cond, st) =>
              match st.consume .rightParen expectRParenIfMsg with
              | (.error e, st) => (.error e, st)
              | (.ok _, st) =>
                  match parseStatement fuel st with
                  | (.error e, st) => (.error e, st)
                  | (.ok thenB, st) =>
                      let (m, st) := st.matchTokens [.elseKw]
                      if m then
                        match parseStatement fuel st with
                        | (.error e, st) => (.error e, st)
                        | (.ok elseB, st) =>
                            (.ok (.ifS cond thenB (some elseB)), st)
                      else (.ok (.ifS cond thenB none), st)
  termination_by structural fuel => fuel

/-- Source: `parser.rs`, `Parser::declare_statement`: requires an
identifier; with no `=` the source checks for an immediate `;` and reports
`Expect expression.` at the `var` token (so `var a;` is a parse error),
otherwise parses the initializer as an expression statement. -/
def declareStatement : Nat → PState → Except Unit Stmt × PState
  | 0, st => (.error (), st)
  | fuel + 1, st =>
      if !st.check .identifier then
        let tok := st.previous
        (.error (), st.reportErr tok.line tok.lexeme "Expect expression.")
      else
        match st.consume .identifier "Expect variable name." with
        | (.error e, st) => (.error e, st)
        | (.ok var, st) =>
            let (m, st') := st.matchTokens [.equal]
            let initRes :=
              if m then parseStatement fuel st'
              else
                let tok := st'.peek
                if TokenType.beq tok.token_type .semiColon then
                  let varTok := st'.tokens.getD (st'.current - 2) defTok
                  (.error (), st'.reportErr varTok.line "var"
                    "Expect expression.")
                else expressionStatement fuel st'
            match initRes with
            | (.error e, st) => (.error e, st)
            | (.ok s, st) =>
                if TokenType.beq st.peek.token_type .semiColon then
                  match st.consume .semiColon "" with
                  | (.error e, st) => (.error e, st)
                  | (.ok _, st) => (.ok (.declare var.lexeme s), st)
                else (.ok (.declare var.lexeme s), st)
  termination_by structural fuel => fuel

/-- Source: `parser.rs`, `Parser::assign_statement`. -/
def assignStatement : Nat → PState → Except Unit Stmt × PState
  | 0, st => (.error (), st)
  | fuel + 1, st =>
      let var := st.previous
      match st.peek.token_type with
      | .semiColon =>
          match st.consume .semiColon "" with
          | (.error e, st) => (.error e, st)
          | (.ok _, st) => (.ok (.expr (.literal var)), st)
      | .equal =>
          match st.consume .equal "" with
          | (.error e, st) => (.error e, st)
          | (.ok _, st) =>
              match parseStatement fuel st with
              | (.error e, st) => (.error e, st)
              | (.ok s, st) => (.ok (.assign var.lexeme s), st)
      | _ => expressionStatement fuel st.retreat
  termination_by structural fuel => fuel

/-- Source: `parser.rs`, `Parser::expression_statement`. -/
def expressionStatement : Nat → PState → Except Unit Stmt × PState
  | 0, st => (.error (), st)
  | fuel + 1, st =>
      match express fuel st with
      | (.error e, st) => (.error e, st)
      | (.ok e, st) =>
          if TokenType.beq st.peek.token_type .semiColon then
            match st.consume .semiColon expectSemiMsg with
            | (.error er, st) => (.error er, st)
            | (.ok _, st) => (.ok (.expr e), st)
          else (.ok (.expr e), st)
  termination_by structural fuel => fuel

/-- Source: `parser.rs`, `Parser::express`. -/
def express : Nat → PState → Except Unit Expr × PState
  | 0, st => (.error (), st)
  | fuel + 1, st => orFn fuel st
  termination_by structural fuel => fuel

/-- Source: `parser.rs`, `Parser::or` (note: the right operand recurses into
`or` itself). -/
def orFn : Nat → PState → Except Unit Expr × PState
  | 0, st => (.error (), st)
  | fuel + 1, st =>
      match andFn fuel st with
      | (.error e, st) => (.error e, st)
      | (.ok e, st) => orLoop fuel st e
  termination_by structural fuel => fuel

/-- The `while match_tokens([Or])` loop of `Parser::or`. -/
def orLoop : Nat → PState → Expr → Except Unit Expr × PState
  | 0, st, _ => (.error (), st)
  | fuel + 1, st, e =>
      let (m, st) := st.matchTokens [.orKw]
      if m then
        let op := st.previous
        match orFn fuel st with
        | (.error er, st) => (.error er, st)
        | (.ok r, st) => orLoop fuel st (.binary e op r)
      else (.ok e, st)
  termination_by structural fuel => fuel

/-- Source: `parser.rs`, `Parser::and`. -/
def andFn : Nat → PState → Except Unit Expr × PState
  | 0, st => (.error (), st)
  | fuel + 1, st =>
      match equality fuel st with
      | (.error e, st) => (.error e, st)
      | (.ok e, st) => andLoop fuel st e
  termination_by structural fuel => fuel

/-- The `while match_tokens([And])` loop of `Parser::and`. -/
def andLoop : Nat → PState → Expr → Except Unit Expr × PState
  | 0, st, _ => (.error (), st)
  | fuel + 1, st, e =>
      let (m, st) := st.matchTokens [.andKw]
      if m then
        let op := st.previous
        match equality fuel st with
        | (.error er, st) => (.error er, st)
        | (.ok r, st) => andLoop fuel st (.binary e op r)
      else (.ok e, st)
  termination_by structural fuel => fuel

/-- Source: `parser.rs`, `Parser::equality`. -/
def equality : Nat → PState → Except Unit Expr × PState
  | 0, st => (.error (), st)
  | fuel + 1, st =>
      match comparison fuel st with
      | (.error e, st) => (.error e, st)
      | (.ok e, st) => equalityLoop fuel st e
  termination_by structural fuel => fuel

/-- The `while match_tokens([BangEqual, EqualEqual])` loop of
`Parser::equality`. -/
def equalityLoop : Nat → PState → Expr → Except Unit Expr × PState
  | 0, st, _ => (.error (), st)
  | fuel + 1, st, e =>
      let (m, st) := st.matchTokens [.bangEqual, .equalEqual]
      if m then
        let op := st.previous
        match comparison fuel st with
        | (.error er, st) => (.error er, st)
        | (.ok r, st) => equalityLoop fuel st (.binary e op r)
      else (.ok e, st)
  termination_by structural fuel => fuel

/-- Source: `parser.rs`, `Parser::comparison`. -/
def comparison : Nat → PState → Except Unit Expr × PState
  | 0, st => (.error (), st)
  | fuel + 1, st =>
      match term fuel st with
      | (.error e, st) => (.error e, st)
      | (.ok e, st) => comparisonLoop fuel st e
  termination_by structural fuel => fuel

/-- The comparison-operator loop of `Parser::comparison`. -/
def comparisonLoop : Nat → PState → Expr → Except Unit Expr × PState
  | 0, st, _ => (.error (), st)
  | fuel + 1, st, e =>
      let (m, st) :=
        st.matchTokens [.greater, .greaterEqual, .less, .lessEqual]
      if m then
        let op := st.previous
        match term fuel st with
        | (.error er, st) => (.error er, st)
        | (.ok r, st) => comparisonLoop fuel st (.binary e op r)
      else (.ok e, st)
  termination_by structural fuel => fuel

/-- Source: `parser.rs`, `Parser::term`. -/
def term : Nat → PState → Except Unit Expr × PState
  | 0, st => (.error (), st)
  | fuel + 1, st =>
      match factor fuel st with
      | (.error e, st) => (.error e, st)
      | (.ok e, st) => termLoop fuel st e
  termination_by structural fuel => fuel

/-- The `while match_tokens([Minus, Plus])` loop of `Parser::term`. -/
def termLoop : Nat → PState → Expr → Except Unit Expr × PState
  | 0, st, _ => (.error (), st)
  | fuel + 1, st, e =>
      let (m, st) := st.matchTokens [.minus, .plus]
      if m then
        let op := st.previous
        match factor fuel st with
        | (.error er, st) => (.error er, st)
        | (.ok r, st) => termLoop fuel st (.binary e op r)
      else (.ok e, st)
  termination_by structural fuel => fuel

/-- Source: `parser.rs`, `Parser::factor`. -/
def factor : Nat → PState → Except Unit Expr × PState
  | 0, st => (.error (), st)
  | fuel + 1, st =>
      match unaryFn fuel st with
      | (.error e, st) => (.error e, st)
      | (.ok e, st) => factorLoop fuel st e
  termination_by structural fuel => fuel

/-- The `while match_tokens([Slash, Star])` loop of `Parser::factor`. -/
def factorLoop : Nat → PState → Expr → Except Unit Expr × PState
  | 0, st, _ => (.error (), st)
  | fuel + 1, st, e =>
      let (m, st) := st.matchTokens [.slash, .star]
      if m then
        let op := st.previous
        match unaryFn fuel st with
        | (.error er, st) => (.error er, st)
        | (.ok r, st) => factorLoop fuel st (.binary e op r)
      else (.ok e, st)
  termination_by structural fuel => fuel

/-- Source: `parser.rs`, `Parser::unary`. -/
def unaryFn : Nat → PState → Except Unit Expr × PState
  | 0, st => (.error (), st)
  | fuel + 1, st =>
      let (m, st) := st.matchTokens [.bang, .minus]
      if m then
        let op := st.previous
        match unaryFn fuel st with
        | (.error er, st) => (.error er, st)
        | (.ok r, st) => (.ok (.unary op r), st)
      else primary fuel st
  termination_by structural fuel => fuel

/-- Source: `parser.rs`, `Parser::primary`, branches in source order
(number and string literals are recognised by pattern match on the peeked
token type; the parenthesis and brace branches yield `Expr::Group`; a long
keyword list falls back to `Expr::Literal`). -/
def primary : Nat → PState → Except Unit Expr × PState
  | 0, st => (.error (), st)
  | fuel + 1, st =>
      let (m, st) := st.matchTokens [.falseKw, .trueKw, .nilKw]
      if m then (.ok (.literal st.previous), st)
      else
        match st.peek.token_type with
        | .numberLit _ =>
            let (_, st) := st.advance
            (.ok (.literal st.previous), st)
        | .stringLit _ =>
            let (_, st) := st.advance
            match st.previous.token_type with
            | .stringLit s =>
                (.ok (.literal ⟨.stringLit s, s, st.previous.line⟩), st)
            | _ => primaryRest fuel st
        | _ => primaryRest fuel st
  termination_by structural fuel => fuel

/-- `Parser::primary` after the literal branches: parenthesized and braced
groups, the keyword/identifier fallback, and the final
`Expect expression.` error. -/
def primaryRest : Nat → PState → Except Unit Expr × PState
  | 0, st => (.error (), st)
  | fuel + 1, st =>
      let (m, st) := st.matchTokens [.leftParen]
      if m then
        match parseStatement fuel st with
        | (.error e, st) => (.error e, st)
        | (.ok s, st) =>
            match st.consume .rightParen "Unmatched parentheses." with
            | (.error e, st) => (.error e, st)
            | (.ok _, st) => (.ok (.group s), st)
      else
        let (m, st) := st.matchTokens [.leftBrace]
        if m then
          match parseStatement fuel st with
          | (.error e, st) => (.error e, st)
          | (.ok s, st) =>
              match st.consume .rightBrace "Unmatched brace." with
              | (.error e, st) => (.error e, st)
              | (.ok _, st) => (.ok (.group s), st)
        else
          let (m, st) := st.matchTokens
            [.andKw, .classKw, .elseKw, .forKw, .funKw, .ifKw, .orKw,
             .printKw, .returnKw, .superKw, .thisKw, .varKw, .whileKw,
             .identifier]
          if m then (.ok (.literal st.previous), st)
          else
            let (tok, st) := st.advance
            (.error (), st.reportErr tok.line tok.lexeme "Expect expression.")
  termination_by structural fuel => fuel
end

/-- The `while !is_eof` loop of `Parser::parse`: successful statements are
collected, failed ones are discarded. -/
def parseLoop : Nat → PState → List Stmt → List Stmt × PState
  | 0, st, acc => (acc, st)
  | fuel + 1, st, acc =>
      if !st.isEof then
        match parseStatement fuel st with
        | (.ok s, st) => parseLoop fuel st (acc ++ [s])
        | (.error _, st) => parseLoop fuel st acc
      else (acc, st)

/-- Source: `parser.rs`, `Parser::parse` wired as `main.rs` uses it: parse
all statements; exit code 65 when any syntax error was reported, otherwise
the statement list. -/
def parseProgram (fuel : Nat) (tokens : List Token) :
    Except Nat (List Stmt) × PState :=
  let st : PState := ⟨tokens, 0, false, []⟩
  let (stmts, st) := parseLoop fuel st []
  (if st.hadError then .error 65 else .ok stmts, st)

end Parse

namespace Scan

open Interp (F64)

/-- Source: `scanner.rs`, `enum TokenType` (this standalone scanner
revision has no identifier or keyword kinds). -/
inductive TokenType where
  | leftParen | rightParen | leftBrace | rightBrace
  | comma | dot | minus | plus | semiColon | star
  | equal | equalEqual | bang | bangEqual
  | less | lessEqual | greater | greaterEqual | slash
  | stringT | numberT | eof
deriving DecidableEq, Repr

/-- Source: `scanner.rs`, `enum Literal`. -/
inductive Literal where
  | str (s : String)
  | num (n : F64)
deriving DecidableEq, Repr

/-- Source: `scanner.rs`, `struct Token`. -/
structure Token where
  token_type : TokenType
  lexeme : String
  literal : Option Literal
  line : Nat
deriving DecidableEq, Repr

/-- Value of a decimal digit run. -/
def digitsToNat (cs : List Char) : Nat :=
  cs.foldl (fun a c => a * 10 + (c.toNat - 48)) 0

/-- `lexeme.parse::<f64>()` on a scanned numeric literal
`<digits>` or `<digits>.<digits>`: the exact decimal value (scanned literals
are modelled without rounding). -/
def parseNumber (intPart fracPart : List Char) : F64 :=
  .finite ((digitsToNat intPart : ℚ) +
    (digitsToNat fracPart : ℚ) / (10 : ℚ) ^ fracPart.length)

/-- The characters a string-literal scan walks over: everything up to the
next `"` (all of the rest when unterminated). -/
def strContents : List Char → List Char
  | [] => []
  | c :: rest => if c = '"' then [] else c :: strContents rest

/-- Whether the string-literal scan finds a closing `"`. -/
def strTerminated : List Char → Bool
  | [] => false
  | c :: rest => if c = '"' then true else strTerminated rest

/-- Length of a `//` comment body: characters consumed up to (excluding)
the next newline. -/
def commentLen : List Char → Nat
  | [] => 0
  | c :: rest => if c = '\n' then 0 else 1 + commentLen rest

/-- A maximal ASCII digit run. -/
def digitRun : List Char → List Char
  | [] => []
  | c :: rest => if c.isDigit then c :: digitRun rest else []

/-- The newline character. -/
def nl : Char := Char.ofNat 10

/-- Rust `char::is_whitespace`: the Unicode White_Space property — tab,
line feed, vertical tab, form feed, carriage return, space, next line,
no-break space, ogham space mark, the en-quad .. hair-space range, line
separator, paragraph separator, narrow no-break space, medium mathematical
space and ideographic space. -/
def rustIsWhitespace (c : Char) : Bool :=
  (9 ≤ c.toNat && c.toNat ≤ 13) || c.toNat = 32 || c.toNat = 0x85 ||
    c.toNat = 0xA0 || c.toNat = 0x1680 ||
    (0x2000 ≤ c.toNat && c.toNat ≤ 0x200A) || c.toNat = 0x2028 ||
    c.toNat = 0x2029 || c.toNat = 0x202F || c.toNat = 0x205F ||
    c.toNat = 0x3000

/-- Source: `scanner.rs`, the `while let Some(c) = self.advance()` loop of
`Scanner::tokenize`: remaining characters, current line, accumulated tokens
and had-error flag; branches in source order (an unexpected character sets
the error flag and scanning continues; an unterminated string sets it and
stops).  Diagnostic text on stderr is not modelled, only the flag. -/
def scanLoop : List Char → Nat → List Token → Bool →
    (List Token × Nat × Bool)
  | [], line, acc, err => (acc, line, err)
  | c :: cs, line, acc, err =>
      match c with
      | '(' => scanLoop cs line (acc ++ [⟨.leftParen, "(", none, line⟩]) err
      | ')' => scanLoop cs line (acc ++ [⟨.rightParen, ")", none, line⟩]) err
      | '{' => scanLoop cs line (acc ++ [⟨.leftBrace, "\x7b", none, line⟩]) err
      | '}' => scanLoop cs line (acc ++ [⟨.rightBrace, "\x7d", none, line⟩]) err
      | ',' => scanLoop cs line (acc ++ [⟨.comma, ",", none, line⟩]) err
      | '.' => scanLoop cs line (acc ++ [⟨.dot, ".", none, line⟩]) err
      | '-' => scanLoop cs line (acc ++ [⟨.minus, "-", none, line⟩]) err
      | '+' => scanLoop cs line (acc ++ [⟨.plus, "+", none, line⟩]) err
      | ';' => scanLoop cs line (acc ++ [⟨.semiColon, ";", none, line⟩]) err
      | '*' => scanLoop cs line (acc ++ [⟨.star, "*", none, line⟩]) err
      | '=' =>
          if cs.head? = some '=' then
            scanLoop (cs.drop 1) line
              (acc ++ [⟨.equalEqual, "==", none, line⟩]) err
          else scanLoop cs line (acc ++ [⟨.equal, "=", none, line⟩]) err
      | '!' =>
          if cs.head? = some '=' then
            scanLoop (cs.drop 1) line
              (acc ++ [⟨.bangEqual, "!=", none, line⟩]) err
          else scanLoop cs line (acc ++ [⟨.bang, "!", none, line⟩]) err
      | '<' =>
          if cs.head? = some '=' then
            scanLoop (cs.drop 1) line
              (acc ++ [⟨.lessEqual, "<=", none, line⟩]) err
          else scanLoop cs line (acc ++ [⟨.less, "<", none, line⟩]) err
      | '>' =>
          if cs.head? = some '=' then
            scanLoop (cs.drop 1) line
              (acc ++ [⟨.greaterEqual, ">=", none, line⟩]) err
          else scanLoop cs line (acc ++ [⟨.greater, ">", none, line⟩]) err
      | '/' =>
          if cs.head? = some '/' then
            scanLoop (cs.drop (1 + commentLen (cs.drop 1))) line acc err
          else scanLoop cs line (acc ++ [⟨.slash, "/", none, line⟩]) err
      | '"' =>
          let content := strContents cs
          let line' := line + content.count nl
          if strTerminated cs then
            scanLoop (cs.drop (content.length + 1)) line'
              (acc ++ [⟨.stringT,
                "\"" ++ String.mk content ++ "\"",
                some (.str (String.mk content)), line'⟩]) err
          else
            (acc, line', true)
      | '\n' => scanLoop cs (line + 1) acc err
      | c =>
          if c.isDigit then
            let ds := digitRun cs
            if (cs.drop ds.length).head? = some '.' &&
                ((cs.drop (ds.length + 1)).head?.map Char.isDigit).getD
                  false then
              let ds2 := digitRun (cs.drop (ds.length + 1))
              scanLoop (cs.drop (ds.length + 1 + ds2.length)) line
                (acc ++ [⟨.numberT,
                  String.mk (c :: ds) ++ "." ++ String.mk ds2,
                  some (.num (parseNumber (c :: ds) ds2)), line⟩]) err
            else
              scanLoop (cs.drop ds.length) line
                (acc ++ [⟨.numberT, String.mk (c :: ds),
                  some (.num (parseNumber (c :: ds) [])), line⟩]) err
          else if rustIsWhitespace c then scanLoop cs line acc err
          else scanLoop cs line acc true
  termination_by cs => cs.length
  decreasing_by
    all_goals simp [List.length_drop]
    all_goals omega

/-- Source: `scanner.rs`, `Scanner::tokenize`: run the scan loop, then push
the single `Eof` token with empty lexeme and the final line; the returned
flag is `had_error` (Rust encodes it as `Ok` vs `Err`, both carrying the
tokens). -/
def tokenize (source : List Char) : List Token × Bool :=
  let (toks, line, err) := scanLoop source 1 [] false
  (toks ++ [⟨.eof, "", none, line⟩], err)

/-- The (1-based) line on which the character at index `i` of the source
sits: one plus the number of newline characters strictly before it (a
newline character itself sits at the end of the line it terminates). -/
def charLine (cs : List Char) (i : Nat) : Nat :=
  1 + (cs.take i).count nl

end Scan

namespace Interp

/-- Truthiness as the specification states it: exactly `Nil` and
`Boolean(false)` are falsy. -/
def Value.truthy : Value → Bool
  | .nil => false
  | .boolean b => b
  | _ => true

/-- Whether a runtime value is a `Number`. -/
def Value.isNumber : Value → Bool
  | .number _ => true
  | _ => false

/-- The names bound by each frame of the scope chain, innermost first. -/
def Env.framesKeys (env : Env) : List (List String) :=
  env.frames.map (fun f => f.map Prod.fst)

/-- The scope chain after an evaluation step extends the initial chain only
by fresh names appended to the innermost frame: no frame is added or
removed, no outer frame changes its bound names, and the innermost frame
keeps its names in place. -/
def keysExtends (a b : List (List String)) : Prop :=
  ∃ ext, b = (a.headD [] ++ ext) :: a.tail

/-- The specification's reading walk: innermost frame first, first binding
wins. -/
def lookupChain : List Frame → String → Option Value
  | [], _ => none
  | f :: rest, n =>
      match lookupA f n with
      | some v => some v
      | none => lookupChain rest n

/-- The specification's assigning walk: rewrite the binding in the
innermost frame that has one, leaving every other frame untouched; `none`
when no frame binds the name. -/
def assignChain : List Frame → String → Value → Option (List Frame)
  | [], _, _ => none
  | f :: rest, n, v =>
      if containsA f n then some (upsert f n v :: rest)
      else (assignChain rest n v).map (f :: ·)

/-- A one-line token (concrete inputs in the theorems below all sit on
line 1). -/
def tk (tt : TokenType) (lx : String) : Token := ⟨tt, lx, 1⟩

/-- The token list the scanner produces for the input `1 + 2 * 3;`. -/
def toksArith : List Token :=
  [tk (.numberLit (.finite 1)) "1", tk .plus "+",
   tk (.numberLit (.finite 2)) "2", tk .star "*",
   tk (.numberLit (.finite 3)) "3", tk .semiColon ";", tk .eof ""]

/-- The statement `1 + 2 * 3;` parses to. -/
def arithStmt : Stmt :=
  .expr (.binary (.literal (tk (.numberLit (.finite 1)) "1")) (tk .plus "+")
    (.binary (.literal (tk (.numberLit (.finite 2)) "2")) (tk .star "*")
      (.literal (tk (.numberLit (.finite 3)) "3"))))

/-- The token list the scanner produces for the input `{}`. -/
def toksEmptyBlock : List Token :=
  [tk .leftBrace "\x7b", tk .rightBrace "\x7d", tk .eof ""]

/-- The token list the scanner produces for the input `var a;`. -/
def toksVarNoInit : List Token :=
  [tk .varKw "var", tk .identifier "a", tk .semiColon ";", tk .eof ""]

end Interp

namespace Interp

/-- C3: evaluating `==` or `!=` never errors and returns a Boolean computed
by-variant: different variants are never equal (in particular `0 == false`
and `"1" == 1` are false and `nil == nil` is true), Numbers compare by IEEE
equality (so NaN is not equal to NaN), Strings by byte sequence, Booleans by
value, Nil equals Nil. -/
theorem claim_C3 :
    (∀ l r : Value,
      evalBinaryOp .equalEqual l r = .ok (.boolean (Value.beq l r)) ∧
      evalBinaryOp .bangEqual l r = .ok (.boolean (!Value.beq l r))) ∧
    (∀ a b, Value.beq (.number a) (.number b) = F64.ieeeEq a b) ∧
    (∀ a b, Value.beq (.boolean a) (.boolean b) = (a == b)) ∧
    (∀ a b, Value.beq (.string a) (.string b) = (a == b)) ∧
    Value.beq .nil .nil = true ∧
    F64.ieeeEq .nan .nan = false ∧
    (∀ l r : Value, Value.beq l r = true →
      (l.isNumber = r.isNumber ∧ (∃ a b, l = .number a ∧ r = .number b) ∨
       (∃ a b, l = .boolean a ∧ r = .boolean b) ∨
       (∃ a b, l = .string a ∧ r = .string b) ∨
       (l = .nil ∧ r = .nil))) ∧
    evalBinaryOp .equalEqual (.number (.finite 0)) (.boolean false) =
      .ok (.boolean false) ∧
    evalBinaryOp .equalEqual (.string "1") (.number (.finite 1)) =
      .ok (.boolean false) ∧
    evalBinaryOp .equalEqual .nil .nil = .ok (.boolean true) := by
  refine ⟨fun l r => ⟨?_, ?_⟩, fun a b => rfl, fun a b => rfl, fun a b => rfl,
    rfl, rfl, ?_, rfl, rfl, rfl⟩
  · cases l <;> cases r <;> rfl
  · cases l <;> cases r <;> rfl
  · intro l r h
    cases l <;> cases r <;> (simp [Value.beq] at h ⊢; try simp [Value.isNumber])

/-- C4: unary `-` on a non-Number operand, and binary `-`, `*`, `/`, `<`,
`<=`, `>`, `>=` with at least one non-Number operand, produce the
diagnostic `Operand must be a number.` with exit code 70. -/
theorem claim_C4 :
    (∀ op ∈ [TokenType.minus, .star, .slash, .greater, .greaterEqual,
        .less, .lessEqual],
      ∀ l r : Value, ¬(l.isNumber = true ∧ r.isNumber = true) →
        evalBinaryOp op l r = .error ⟨"Operand must be a number.", 70⟩) ∧
    (∀ v : Value, v.isNumber = false →
      evalUnaryOp .minus v = .error ⟨"Operand must be a number.", 70⟩) := by
  constructor
  · intro op hop l r h
    fin_cases hop <;> cases l <;> cases r <;>
      simp [Value.isNumber] at h <;> rfl
  · intro v hv
    cases v <;> simp [Value.isNumber] at hv <;> rfl

/-- C4 witness: `"a" * 1` and unary `-nil` both report
`Operand must be a number.` with exit code 70. -/
theorem claim_C4_witness :
    evalBinaryOp .star (.string "a") (.number (.finite 1)) =
      .error ⟨"Operand must be a number.", 70⟩ ∧
    evalUnaryOp .minus .nil = .error ⟨"Operand must be a number.", 70⟩ :=
  ⟨claim_C4.1 .star (by simp) (.string "a") (.number (.finite 1)) (by simp [Value.isNumber]),
   claim_C4.2 .nil rfl⟩

/-- C6 counterexample: the claim says `!` succeeds on every value and
strings are truthy, but the code errors on a String operand: `!""` reports
`Operand must be a number or boolean.` with exit code 65 instead of
returning `Boolean(false)`. -/
theorem claim_C6_counterexample :
    evalUnaryOp .bang (.string "") =
      .error ⟨"Operand must be a number or boolean.", 65⟩ ∧
    evalUnaryOp .bang (.string "") ≠ .ok (.boolean false) := by
  exact ⟨rfl, fun h => Except.noConfusion h⟩

/-- C6 amended: `!` applies truthiness to Boolean, Number and Nil operands
(numbers, including 0, are truthy; `nil` is falsy), but a String operand is
a runtime error `Operand must be a number or boolean.` with exit code 65
rather than being treated as truthy. -/
theorem claim_C6_amended :
    (∀ v : Value, (∀ s, v ≠ .string s) →
      evalUnaryOp .bang v = .ok (.boolean (!v.truthy))) ∧
    (∀ s, evalUnaryOp .bang (.string s) =
      .error ⟨"Operand must be a number or boolean.", 65⟩) := by
  constructor
  · intro v hv
    cases v with
    | number n => rfl
    | boolean b => cases b <;> rfl
    | string s => exact absurd rfl (hv s)
    | nil => rfl
  · intro s; rfl

/-- C6 witness: `!0` evaluates to `Boolean(false)` since `0` is truthy. -/
theorem claim_C6_witness :
    evalUnaryOp .bang (.number (.finite 0)) =
      .ok (.boolean (!(Value.number (.finite 0)).truthy)) :=
  claim_C6_amended.1 (.number (.finite 0)) (fun _ h => nomatch h)

end Interp

namespace Interp

theorem lookup_upsert (f : Frame) (n : String) (v : Value) :
    lookupA (upsert f n v) n = some v := by
  induction f with
  | nil => simp [upsert, lookupA]
  | cons kv rest ih =>
      obtain ⟨k, w⟩ := kv
      by_cases h : k = n <;> simp [upsert, lookupA, h, ih]

theorem env_get_chain : ∀ (env : Env) (n : String),
    Env.get env n =
      (match lookupChain env.frames n with
       | some v => .ok v
       | none => .error ⟨undefinedVarMsg n, 70⟩)
  | .mk vs none, n => by
      cases h : lookupA vs n <;>
        simp [Env.get, Env.frames, lookupChain, h]
  | .mk vs (some e), n => by
      cases h : lookupA vs n <;>
        simp [Env.get, Env.frames, lookupChain, h, env_get_chain e n]

theorem env_assign_chain : ∀ (env : Env) (n : String) (v : Value),
    (Env.assign env n v).map Env.frames =
      (match assignChain env.frames n v with
       | some fs => .ok fs
       | none => .error ⟨undefinedVarMsg n, 70⟩)
  | .mk vs none, n, v => by
      by_cases h : containsA vs n <;>
        simp [Env.assign, Env.frames, assignChain, h, Except.map]
  | .mk vs (some e), n, v => by
      by_cases h : containsA vs n
      · simp [Env.assign, Env.frames, assignChain, h, Except.map]
      · have ih := env_assign_chain e n v
        cases h2 : Env.assign e n v with
        | error er =>
            simp [h2, Except.map] at ih
            cases h3 : assignChain e.frames n v with
            | none =>
                simp [h3] at ih
                simp [Env.assign, Env.frames, assignChain, h, h2, h3,
                  Except.map, ih]
            | some fs => simp [h3] at ih
        | ok e2 =>
            simp [h2, Except.map] at ih
            cases h3 : assignChain e.frames n v with
            | none => simp [h3] at ih
            | some fs =>
                simp [h3] at ih
                simp [Env.assign, Env.frames, assignChain, h, h2, h3,
                  Except.map, ih]

/-- C7: reading an identifier and assigning to a name both walk the scope
chain from the innermost frame outward and act on the first binding found
(rewriting exactly that frame on assignment and leaving every other frame
untouched); when no frame binds the name the operation fails with
`Undefined variable '<name>'.` and exit code 70, producing no updated
environment (so a failed assignment changes no scope). -/
theorem claim_C7 :
    (∀ (env : Env) (n : String),
      Env.get env n =
        (match lookupChain env.frames n with
         | some v => .ok v
         | none => .error ⟨undefinedVarMsg n, 70⟩)) ∧
    (∀ (env : Env) (n : String) (v : Value),
      (Env.assign env n v).map Env.frames =
        (match assignChain env.frames n v with
         | some fs => .ok fs
         | none => .error ⟨undefinedVarMsg n, 70⟩)) :=
  ⟨env_get_chain, env_assign_chain⟩

/-- C8 counterexample: `1 + 2 * 3;` parses with the claimed precedence but
its canonical rendering is `(+ 1 (* 2 3))` — integral numeric literals
print without any `.0` suffix (Rust `{}` float formatting), contradicting
the claimed `(+ 1.0 (* 2.0 3.0))`. -/
theorem claim_C8_counterexample :
    (Parse.parseProgram 100 toksArith).1 = .ok [arithStmt] ∧
    Stmt.fmt arithStmt = "(+ 1 (* 2 3))" ∧
    "(+ 1 (* 2 3))" ≠ "(+ 1.0 (* 2.0 3.0))" :=
  ⟨rfl, rfl, by decide⟩

/-- C8 amended: the canonical AST rendering prints numeric literals with
Rust default float formatting — integral values without fractional suffix —
strings as their contents without quotes, and identifiers as their lexeme;
in particular `1 + 2 * 3;` parses to a statement that prints as
`(+ 1 (* 2 3))`. -/
theorem claim_C8_amended :
    (∀ n lx ln, Expr.fmt (.literal ⟨.numberLit n, lx, ln⟩) = fmtF64 n) ∧
    (∀ k : ℤ, fmtF64 (.finite (k : ℚ)) = toString k) ∧
    (∀ s lx ln, Expr.fmt (.literal ⟨.stringLit s, lx, ln⟩) = s) ∧
    (∀ lx ln, Expr.fmt (.literal ⟨.identifier, lx, ln⟩) = lx) ∧
    (Parse.parseProgram 100 toksArith).1 = .ok [arithStmt] ∧
    Stmt.fmt arithStmt = "(+ 1 (* 2 3))" := by
  refine ⟨fun n lx ln => rfl, fun k => ?_, fun s lx ln => rfl,
    fun lx ln => rfl, rfl, rfl⟩
  simp [fmtF64, fmtRat, Rat.den_intCast, Rat.num_intCast]

/-- C1 counterexample: with `x` bound to `nil`, evaluating
`true or (x = 1)` does evaluate the right operand — the assignment fires
and `x` ends up `1` — contradicting short-circuiting; and `false and true`
does not return the falsy left operand: `and` is rejected as
`Unsupported binary expression.` with exit code 65. -/
theorem claim_C1_counterexample :
    Expr.evaluate
      (.binary (.literal (tk .trueKw "true")) (tk .orKw "or")
        (.group (.assign "x"
          (.expr (.literal (tk (.numberLit (.finite 1)) "1"))))))
      (Env.new.define "x" .nil) =
      .ok (.boolean true, Env.mk [("x", .number (.finite 1))] none) ∧
    Value.number (.finite 1) ≠ Value.nil ∧
    evalBinaryOp .andKw (.boolean false) (.boolean true) =
      .error ⟨"Unsupported binary expression.", 65⟩ :=
  ⟨rfl, by decide, rfl⟩

/-- C1 amended: a binary expression always evaluates its left operand and
then its right operand before dispatching on the operator (no
short-circuit); `or` then returns the left operand unchanged when truthy,
else the right operand unchanged when truthy, else `Boolean(false)`; and
every `and` expression is rejected with `Unsupported binary expression.`
and exit code 65. -/
theorem claim_C1_amended :
    (∀ l r : Value, evalBinaryOp .orKw l r =
      .ok (if l.truthy then l else if r.truthy then r else .boolean false)) ∧
    (∀ l r : Value, evalBinaryOp .andKw l r =
      .error ⟨"Unsupported binary expression.", 65⟩) ∧
    (∀ (e1 e2 : Expr) (op : Token) (env : Env) (v1 : Value) (env1 : Env),
      Expr.evaluate e1 env = .ok (v1, env1) →
      Expr.evaluate (.binary e1 op e2) env =
        (Expr.evaluate e2 env1).bind
          (fun p => (evalBinaryOp op.token_type v1 p.1).map
            (fun v => (v, p.2)))) := by
  refine ⟨fun l r => ?_, fun l r => ?_, fun e1 e2 op env v1 env1 h => ?_⟩
  · cases l <;> cases r <;>
      first
        | rfl
        | (rename_i b; cases b <;> rfl)
        | (rename_i a b; cases a <;> cases b <;> rfl)
  · cases l <;> cases r <;> rfl
  · simp only [Expr.evaluate, h]
    rfl

/-- C1 witness: `true or 2` evaluates its right operand and dispatches on
the two operand values. -/
theorem claim_C1_witness :
    Expr.evaluate (.binary (.literal (tk .trueKw "true")) (tk .orKw "or")
        (.literal (tk (.numberLit (.finite 2)) "2"))) Env.new =
      (Expr.evaluate (.literal (tk (.numberLit (.finite 2)) "2"))
        Env.new).bind
        (fun p => (evalBinaryOp TokenType.orKw (Value.boolean true) p.1).map
          (fun v => (v, p.2))) :=
  claim_C1_amended.2.2 _ _ _ _ _ _ rfl

end Interp

namespace Parse

open Interp

theorem tokenTypeBeq_eq : ∀ a b : TokenType, TokenType.beq a b = true → a = b := by
  intro a b h
  cases a <;> cases b <;>
    simp [TokenType.beq, F64.ieeeEq] at h <;> try rfl
  all_goals
    (rename_i x y
     first
       | (subst h; rfl)
       | (cases x <;> cases y <;> simp at h <;> simp [h]))

theorem check_isEof_false {st : PState} {t : TokenType}
    (h : st.check t = true) : st.isEof = false := by
  by_cases he : st.isEof = true
  · simp [PState.check, he] at h
  · simpa using he

/-- C10: when the statement after `{` is immediately `}`, `block_statement`
consumes the `}` and discards the empty block by returning `Err(())`: the
cursor advances past the `}` but the had-error flag and the emitted
diagnostics are untouched (the state record changes only in `current`), so
for the input `{}` the overall parse succeeds with exit code 0, reports
nothing, and produces an empty statement list. -/
theorem claim_C10 :
    (∀ fuel (st : PState), st.check .rightBrace = true →
      blockStatement (fuel + 2) st =
        (.error (), { st with current := st.current + 1 })) ∧
    (parseProgram 100 toksEmptyBlock).1 = .ok [] ∧
    (parseProgram 100 toksEmptyBlock).2.hadError = false ∧
    (parseProgram 100 toksEmptyBlock).2.diags = [] := by
  refine ⟨fun fuel st h => ?_, rfl, rfl, rfl⟩
  have hne : st.isEof = false := check_isEof_false h
  simp [blockStatement, blockLoop, PState.consume, h, hne, PState.advance,
    List.isEmpty]

/-- C10 witness: parsing the token stream of `{}` from just after the `{`
discards the empty block, advancing only the cursor. -/
theorem claim_C10_witness :
    blockStatement 2 ⟨toksEmptyBlock, 1, false, []⟩ =
      (.error (), ⟨toksEmptyBlock, 2, false, []⟩) :=
  claim_C10.1 0 ⟨toksEmptyBlock, 1, false, []⟩ rfl

/-- C5 counterexample: `var a;` does not parse: the parser reports
`[line 1] Error at 'var': Expect expression.` and the parse exits with
code 65, contradicting the claim that a `var` declaration without an
initializer parses and defaults to `Nil`. -/
theorem claim_C5_counterexample :
    (parseProgram 100 toksVarNoInit).1 = .error 65 ∧
    (parseProgram 100 toksVarNoInit).2.hadError = true ∧
    (parseProgram 100 toksVarNoInit).2.diags.head? =
      some ("[line 1] Error at " ++ sq ++ "var" ++ sq ++
        ": Expect expression.") :=
  ⟨rfl, rfl, rfl⟩

/-- C5 amended: a `var` declaration whose identifier is directly followed
by `;` is a parse error (`Expect expression.` reported at the `var`
token); a `var` declaration with an initializer evaluates it and defines
the name in the current (innermost) scope, shadowing any outer binding of
the same name. -/
theorem claim_C5_amended :
    (∀ fuel (st : PState), st.check .identifier = true →
      TokenType.beq (st.tokens.getD (st.current + 1) defTok).token_type
        .semiColon = true →
      declareStatement (fuel + 1) st =
        (.error (), PState.reportErr { st with current := st.current + 1 }
          (st.tokens.getD (st.current - 1) defTok).line "var"
          "Expect expression.")) ∧
    (∀ (x : String) (s : Stmt) (env : Env) (v : Value) (env1 : Env),
      Stmt.evaluate s env = .ok (v, env1) →
      Stmt.evaluate (.declare x s) env = .ok (.nil, env1.define x v)) ∧
    (∀ (env : Env) (x : String) (v : Value),
      Env.get (env.define x v) x = .ok v) := by
  refine ⟨fun fuel st h1 h2 => ?_, fun x s env v env1 h => ?_,
    fun env x v => ?_⟩
  · have hEq : (st.tokens.getD (st.current + 1) defTok).token_type =
        .semiColon := tokenTypeBeq_eq _ _ h2
    have hne : st.isEof = false := check_isEof_false h1
    have hpk : ((st.tokens[st.current]?).getD defTok).token_type =
        .identifier := by
      have h1' := h1
      simp [PState.check, hne, PState.peek, PState.isEof, List.getD] at h1'
      exact tokenTypeBeq_eq _ _ h1'.2
    simp only [List.getD, List.get?_eq_getElem?] at hEq
    simp [declareStatement, PState.consume, h1, hne, PState.advance,
      PState.matchTokens, PState.check, PState.isEof, PState.peek, hEq,
      hpk, TokenType.beq, List.getD]
  · simp only [Stmt.evaluate, h]; rfl
  · obtain ⟨vs, enc⟩ := env
    cases enc <;> simp [Env.define, Env.get, lookup_upsert]

/-- C5 witness: `var a;` fails inside `declare_statement` with the
`Expect expression.` report at the `var` token, while `var a = 1;`
evaluates to a binding of `a` in the current scope that shadows an outer
`a`. -/
theorem claim_C5_witness :
    declareStatement 11 ⟨toksVarNoInit, 1, false, []⟩ =
      (.error (), PState.reportErr ⟨toksVarNoInit, 2, false, []⟩ 1 "var"
        "Expect expression.") ∧
    Stmt.evaluate
        (.declare "a" (.expr (.literal (tk (.numberLit (.finite 1)) "1"))))
        (Env.mk [("a", .nil)] none) =
      .ok (.nil, (Env.mk [("a", .nil)] none).define "a"
        (.number (.finite 1))) ∧
    Env.get ((Env.mk [("a", .nil)] none).define "a" (.number (.finite 1)))
        "a" = .ok (.number (.finite 1)) :=
  ⟨claim_C5_amended.1 10 ⟨toksVarNoInit, 1, false, []⟩ rfl rfl,
   claim_C5_amended.2.1 "a" _ _ _ _ rfl,
   claim_C5_amended.2.2 (Env.mk [("a", .nil)] none) "a"
     (.number (.finite 1))⟩

end Parse

namespace Interp

theorem exbind_ok {α β : Type} (a : α) (f : α → Except RErr β) :
    ((Except.ok a : Except RErr α) >>= f) = f a := rfl

theorem framesKeys_ne_nil : ∀ env : Env, env.framesKeys ≠ []
  | .mk _ none => by simp [Env.framesKeys, Env.frames]
  | .mk _ (some _) => by simp [Env.framesKeys, Env.frames]

theorem framesKeys_mk_none (vs : Frame) :
    (Env.mk vs none).framesKeys = [vs.map Prod.fst] := rfl

theorem framesKeys_mk_some (vs : Frame) (e : Env) :
    (Env.mk vs (some e)).framesKeys = vs.map Prod.fst :: e.framesKeys := rfl

theorem framesKeys_cons : ∀ env : Env,
    env.framesKeys = env.framesKeys.headD [] :: env.framesKeys.tail
  | .mk _ none => rfl
  | .mk _ (some _) => rfl

theorem keysExtends_self (env : Env) :
    keysExtends env.framesKeys env.framesKeys :=
  ⟨[], by rw [List.append_nil]; exact framesKeys_cons env⟩

theorem keysExtends_of_eq {env env' : Env}
    (h : env'.framesKeys = env.framesKeys) :
    keysExtends env.framesKeys env'.framesKeys := by
  rw [h]; exact keysExtends_self env

theorem keysExtends_trans {a b c : List (List String)}
    (h1 : keysExtends a b) (h2 : keysExtends b c) : keysExtends a c := by
  obtain ⟨e1, he1⟩ := h1
  obtain ⟨e2, he2⟩ := h2
  refine ⟨e1 ++ e2, ?_⟩
  subst he1
  simpa [List.append_assoc] using he2

theorem upsert_keys (f : Frame) (n : String) (v : Value) :
    (upsert f n v).map Prod.fst =
      if containsA f n then f.map Prod.fst else f.map Prod.fst ++ [n] := by
  induction f with
  | nil => simp [upsert, containsA, lookupA]
  | cons kv rest ih =>
      obtain ⟨k, w⟩ := kv
      by_cases h : k = n <;>
        (simp [upsert, containsA, lookupA, h, ih]; try (split <;> simp))

theorem define_keys : ∀ (env : Env) (n : String) (v : Value),
    keysExtends env.framesKeys (env.define n v).framesKeys := by
  intro env n v
  obtain ⟨vs, enc⟩ := env
  refine ⟨if containsA vs n then [] else [n], ?_⟩
  cases enc <;>
    simp [Env.define, framesKeys_mk_none, framesKeys_mk_some, upsert_keys] <;>
    split <;> simp

theorem assign_keys : ∀ (env : Env) (n : String) (v : Value) (env' : Env),
    Env.assign env n v = .ok env' → env'.framesKeys = env.framesKeys
  | .mk vs none, n, v, env', h => by
      by_cases hc : containsA vs n
      · simp [Env.assign, hc] at h
        subst h
        simp [framesKeys_mk_none, upsert_keys, hc]
      · simp [Env.assign, hc] at h
  | .mk vs (some e), n, v, env', h => by
      by_cases hc : containsA vs n
      · simp [Env.assign, hc] at h
        subst h
        simp [framesKeys_mk_some, upsert_keys, hc]
      · simp [Env.assign, hc, Except.map] at h
        cases ha : Env.assign e n v with
        | error er => rw [ha] at h; exact absurd h (fun hh => nomatch hh)
        | ok e2 =>
            rw [ha] at h
            simp at h
            subst h
            simp [framesKeys_mk_some, assign_keys e n v e2 ha]

theorem popScope_keys : ∀ (benv d : Env),
    benv.framesKeys.tail = d.framesKeys →
    (benv.popScope d).framesKeys = d.framesKeys
  | .mk vs none, d, h => by
      rw [framesKeys_mk_none] at h
      exact absurd h.symm (framesKeys_ne_nil d)
  | .mk vs (some e), d, h => by
      rw [framesKeys_mk_some] at h
      simpa [Env.popScope] using h

end Interp

namespace Interp

mutual
theorem evalExpr_keys : ∀ (e : Expr) (env : Env) (v : Value) (env' : Env),
    Expr.evaluate e env = .ok (v, env') →
    keysExtends env.framesKeys env'.framesKeys
  | .binary l op r, env, v, env', h => by
      simp only [Expr.evaluate] at h
      cases hl : Expr.evaluate l env with
      | error er => rw [hl] at h; exact absurd h (fun hh => nomatch hh)
      | ok p =>
        obtain ⟨lv, env1⟩ := p
        rw [hl, exbind_ok] at h
        cases hr : Expr.evaluate r env1 with
        | error er => rw [hr] at h; exact absurd h (fun hh => nomatch hh)
        | ok q =>
          obtain ⟨rv, env2⟩ := q
          rw [hr, exbind_ok] at h
          cases hb : evalBinaryOp op.token_type lv rv with
          | error er => rw [hb] at h; exact absurd h (fun hh => nomatch hh)
          | ok w =>
            rw [hb] at h
            simp [Except.map] at h
            obtain ⟨hv, he⟩ := h
            subst he
            exact keysExtends_trans (evalExpr_keys l env lv env1 hl)
              (evalExpr_keys r env1 rv env2 hr)
  | .literal tok, env, v, env', h => by
      simp only [Expr.evaluate] at h
      cases ht : tok.token_type <;> rw [ht] at h
      case identifier =>
        cases hg : Env.get env tok.lexeme with
        | error er => rw [hg] at h; exact absurd h (fun hh => nomatch hh)
        | ok w =>
            rw [hg] at h
            simp [Except.map] at h
            obtain ⟨h1, h2⟩ := h
            subst h2
            exact keysExtends_self _
      all_goals simp at h
      all_goals
        (obtain ⟨h1, h2⟩ := h; subst h2; exact keysExtends_self _)
  | .unary op e, env, v, env', h => by
      simp only [Expr.evaluate] at h
      cases he : Expr.evaluate e env with
      | error er => rw [he] at h; exact absurd h (fun hh => nomatch hh)
      | ok p =>
        obtain ⟨ev, env1⟩ := p
        rw [he, exbind_ok] at h
        cases hu : evalUnaryOp op.token_type ev with
        | error er => rw [hu] at h; exact absurd h (fun hh => nomatch hh)
        | ok w =>
            rw [hu] at h
            simp [Except.map] at h
            obtain ⟨hv, h2⟩ := h
            subst h2
            exact evalExpr_keys e env ev env1 he
  | .group s, env, v, env', h => by
      simp only [Expr.evaluate] at h
      exact evalStmt_keys s env v env' h

theorem evalStmt_keys : ∀ (s : Stmt) (env : Env) (v : Value) (env' : Env),
    Stmt.evaluate s env = .ok (v, env') →
    keysExtends env.framesKeys env'.framesKeys
  | .block ss, env, v, env', h => by
      simp only [Stmt.evaluate] at h
      cases hb : evalStmts ss (Env.with_enclosing env) with
      | error er => rw [hb] at h; exact absurd h (fun hh => nomatch hh)
      | ok benv =>
        rw [hb, exbind_ok] at h
        simp at h
        obtain ⟨hv, he⟩ := h
        subst he
        have hk := evalStmts_keys ss (Env.with_enclosing env) benv hb
        obtain ⟨ext, hext⟩ := hk
        have htail : benv.framesKeys.tail = env.framesKeys := by
          rw [hext]
          simp [Env.with_enclosing, framesKeys_mk_some]
        exact keysExtends_of_eq (popScope_keys benv env htail)
  | .print s, env, v, env', h => by
      simp only [Stmt.evaluate] at h
      cases hs : Stmt.evaluate s env with
      | error er => rw [hs] at h; exact absurd h (fun hh => nomatch hh)
      | ok p =>
        obtain ⟨sv, env1⟩ := p
        rw [hs, exbind_ok] at h
        simp at h
        obtain ⟨hv, he⟩ := h
        subst he
        exact evalStmt_keys s env sv env1 hs
  | .ifS c t eb, env, v, env', h => by
      simp only [Stmt.evaluate] at h
      cases hc : Stmt.evaluate c env with
      | error er => rw [hc] at h; exact absurd h (fun hh => nomatch hh)
      | ok p =>
        obtain ⟨cv, env1⟩ := p
        rw [hc, exbind_ok] at h
        have hfirst := evalStmt_keys c env cv env1 hc
        cases cv with
        | number n =>
            exact keysExtends_trans hfirst (evalStmt_keys t env1 v env' h)
        | string s =>
            exact keysExtends_trans hfirst (evalStmt_keys t env1 v env' h)
        | boolean b =>
            cases b with
            | true =>
                exact keysExtends_trans hfirst (evalStmt_keys t env1 v env' h)
            | false =>
                cases eb with
                | some el =>
                    exact keysExtends_trans hfirst
                      (evalStmt_keys el env1 v env' h)
                | none =>
                    simp at h
                    obtain ⟨hv, he⟩ := h
                    subst he
                    exact hfirst
        | nil =>
            cases eb with
            | some el =>
                exact keysExtends_trans hfirst (evalStmt_keys el env1 v env' h)
            | none =>
                simp at h
                obtain ⟨hv, he⟩ := h
                subst he
                exact hfirst
  | .declare x s, env, v, env', h => by
      simp only [Stmt.evaluate] at h
      cases hs : Stmt.evaluate s env with
      | error er => rw [hs] at h; exact absurd h (fun hh => nomatch hh)
      | ok p =>
        obtain ⟨sv, env1⟩ := p
        rw [hs, exbind_ok] at h
        simp at h
        obtain ⟨hv, he⟩ := h
        subst he
        exact keysExtends_trans (evalStmt_keys s env sv env1 hs)
          (define_keys env1 x sv)
  | .assign x s, env, v, env', h => by
      simp only [Stmt.evaluate] at h
      cases hs : Stmt.evaluate s env with
      | error er => rw [hs] at h; exact absurd h (fun hh => nomatch hh)
      | ok p =>
        obtain ⟨sv, env1⟩ := p
        rw [hs, exbind_ok] at h
        cases ha : Env.assign env1 x sv with
        | error er => rw [ha] at h; exact absurd h (fun hh => nomatch hh)
        | ok env2 =>
            rw [ha] at h
            simp [Except.map] at h
            obtain ⟨hv, he⟩ := h
            subst he
            exact keysExtends_trans (evalStmt_keys s env sv env1 hs)
              (keysExtends_of_eq (assign_keys env1 x sv env2 ha))
  | .expr e, env, v, env', h => by
      simp only [Stmt.evaluate] at h
      exact evalExpr_keys e env v env' h

theorem evalStmts_keys : ∀ (ss : List Stmt) (env env' : Env),
    evalStmts ss env = .ok env' →
    keysExtends env.framesKeys env'.framesKeys
  | [], env, env', h => by
      simp only [evalStmts] at h
      simp at h
      subst h
      exact keysExtends_self _
  | s :: rest, env, env', h => by
      simp only [evalStmts] at h
      cases hs : Stmt.evaluate s env with
      | error er => rw [hs] at h; exact absurd h (fun hh => nomatch hh)
      | ok p =>
        obtain ⟨sv, env1⟩ := p
        rw [hs, exbind_ok] at h
        exact keysExtends_trans (evalStmt_keys s env sv env1 hs)
          (evalStmts_keys rest env1 env' h)
end

end Interp

namespace Interp

/-- C2: a block's environment shares its enclosing chain rather than
cloning it: block evaluation runs the body on a fresh scope pushed onto
the same chain and afterwards continues with that chain's (possibly
mutated) enclosing part, so an `assign` to an outer binding made inside the
block is visible after the block exits; and the bound-name structure of the
outer chain is preserved exactly — no outer binding is deleted and no name
`define`d inside the block leaks into the outer scope.  The concrete run
`var a = 1; { a = 2; var b = 3; }` ends with `a` bound to `2` and `b`
undefined. -/
theorem claim_C2 :
    (∀ (ss : List Stmt) (env : Env),
      Stmt.evaluate (.block ss) env =
        (evalStmts ss (Env.with_enclosing env)).bind
          (fun benv => .ok (.nil, benv.popScope env))) ∧
    (∀ (ss : List Stmt) (env : Env) (v : Value) (env' : Env),
      Stmt.evaluate (.block ss) env = .ok (v, env') →
      v = .nil ∧ env'.framesKeys = env.framesKeys) ∧
    (evalStmts
        [.declare "a" (.expr (.literal (tk (.numberLit (.finite 1)) "1"))),
         .block
           [.assign "a" (.expr (.literal (tk (.numberLit (.finite 2)) "2"))),
            .declare "b"
              (.expr (.literal (tk (.numberLit (.finite 3)) "3")))]]
        Env.new = .ok (Env.mk [("a", .number (.finite 2))] none)) ∧
    Env.get (Env.mk [("a", .number (.finite 2))] none) "a" =
      .ok (.number (.finite 2)) ∧
    Env.get (Env.mk [("a", .number (.finite 2))] none) "b" =
      .error ⟨undefinedVarMsg "b", 70⟩ := by
  refine ⟨fun ss env => rfl, fun ss env v env' h => ?_, rfl, rfl, rfl⟩
  simp only [Stmt.evaluate] at h
  cases hb : evalStmts ss (Env.with_enclosing env) with
  | error er => rw [hb] at h; exact absurd h (fun hh => nomatch hh)
  | ok benv =>
      rw [hb, exbind_ok] at h
      simp at h
      obtain ⟨hv, he⟩ := h
      subst he
      obtain ⟨ext, hext⟩ := evalStmts_keys ss (Env.with_enclosing env) benv hb
      have htail : benv.framesKeys.tail = env.framesKeys := by
        rw [hext]
        simp [Env.with_enclosing, framesKeys_mk_some]
      exact ⟨hv.symm, popScope_keys benv env htail⟩

/-- C2 witness: the block `{ a = 2; var b = 3; }` run with an outer scope
binding `a` returns `Nil` and preserves the outer scope's bound names. -/
theorem claim_C2_witness :
    Value.nil = Value.nil ∧
    (Env.mk [("a", Value.number (.finite 2))] none).framesKeys =
      (Env.mk [("a", Value.number (.finite 1))] none).framesKeys :=
  claim_C2.2.1
    [.assign "a" (.expr (.literal (tk (.numberLit (.finite 2)) "2"))),
     .declare "b" (.expr (.literal (tk (.numberLit (.finite 3)) "3")))]
    (Env.mk [("a", .number (.finite 1))] none) .nil
    (Env.mk [("a", .number (.finite 2))] none) rfl

end Interp

namespace Scan

theorem strContents_decomp : ∀ cs : List Char, strTerminated cs = true →
    cs = strContents cs ++ '"' :: cs.drop ((strContents cs).length + 1)
  | [], h => by simp [strTerminated] at h
  | c :: rest, h => by
      by_cases hc : c = '"'
      · subst hc
        simp [strContents, strTerminated]
      · rw [strTerminated, if_neg hc] at h
        rw [strContents, if_neg hc]
        simpa using strContents_decomp rest h

theorem strContents_count (cs : List Char) (h : strTerminated cs = true) :
    cs.count nl = (strContents cs).count nl +
      (cs.drop ((strContents cs).length + 1)).count nl := by
  conv_lhs => rw [strContents_decomp cs h]
  have : ('"' : Char) ≠ nl := by decide
  simp [List.count_append, List.count_cons, this]

theorem commentLen_count : ∀ l : List Char,
    l.count nl = (l.drop (commentLen l)).count nl
  | [] => by simp [commentLen]
  | c :: rest => by
      by_cases hc : c = nl
      · subst hc
        simp [commentLen, nl]
      · have hcnl : c ≠ '\n' := hc
        rw [commentLen, if_neg (by simpa [nl] using hc)]
        have : (1 + commentLen rest) = commentLen rest + 1 := by omega
        rw [this]
        simp only [List.drop_succ_cons]
        rw [List.count_cons]
        simp [hc, commentLen_count rest]

theorem digit_ne_nl {c : Char} (h : c.isDigit = true) : c ≠ nl := by
  intro hc
  subst hc
  simp [Char.isDigit, nl] at h

theorem digitRun_digits : ∀ l : List Char, ∀ c ∈ digitRun l, c.isDigit = true
  | [] => by simp [digitRun]
  | c :: rest => by
      by_cases hc : c.isDigit
      · rw [digitRun, if_pos hc]
        intro d hd
        rcases hd with _ | hd
        · exact hc
        · exact digitRun_digits rest d (by assumption)
      · rw [digitRun, if_neg hc]
        simp

theorem digitRun_decomp : ∀ l : List Char,
    l = digitRun l ++ l.drop (digitRun l).length
  | [] => by simp [digitRun]
  | c :: rest => by
      by_cases hc : c.isDigit
      · rw [digitRun, if_pos hc]
        simpa using digitRun_decomp rest
      · rw [digitRun, if_neg hc]
        simp

theorem digitRun_count (l : List Char) :
    l.count nl = (l.drop (digitRun l).length).count nl := by
  conv_lhs => rw [digitRun_decomp l]
  rw [List.count_append]
  have : (digitRun l).count nl = 0 := by
    rw [List.count_eq_zero]
    intro h
    exact digit_ne_nl (digitRun_digits l nl h) rfl
  omega

theorem head_dot_count (l : List Char) (h : l.head? = some '.') :
    l.count nl = (l.drop 1).count nl := by
  cases l with
  | nil => simp at h
  | cons c rest =>
      simp at h
      subst h
      simp [List.count_cons, nl]

end Scan

namespace Scan

theorem inv_step (cs' : List Char) (line0 line' : Nat) (acc : List Token)
    (tok : Token) (err : Bool) (n : Nat)
    (ih : ∃ rest : List Token,
      (scanLoop cs' line' (acc ++ [tok]) err).1 = (acc ++ [tok]) ++ rest ∧
      (∀ t ∈ rest, t.token_type ≠ .eof ∧ line' ≤ t.line ∧
        t.line ≤ (scanLoop cs' line' (acc ++ [tok]) err).2.1) ∧
      List.Pairwise (fun a b => a.line ≤ b.line) rest ∧
      line' ≤ (scanLoop cs' line' (acc ++ [tok]) err).2.1 ∧
      ((scanLoop cs' line' (acc ++ [tok]) err).2.2 = false →
        err = false ∧
        (scanLoop cs' line' (acc ++ [tok]) err).2.1 = line' + cs'.count nl))
    (htok : tok.token_type ≠ .eof) (hline : tok.line = line')
    (hl0 : line0 ≤ line') (hn : cs'.count nl + (line' - line0) = n) :
    ∃ rest : List Token,
      (scanLoop cs' line' (acc ++ [tok]) err).1 = acc ++ rest ∧
      (∀ t ∈ rest, t.token_type ≠ .eof ∧ line0 ≤ t.line ∧
        t.line ≤ (scanLoop cs' line' (acc ++ [tok]) err).2.1) ∧
      List.Pairwise (fun a b => a.line ≤ b.line) rest ∧
      line0 ≤ (scanLoop cs' line' (acc ++ [tok]) err).2.1 ∧
      ((scanLoop cs' line' (acc ++ [tok]) err).2.2 = false →
        err = false ∧
        (scanLoop cs' line' (acc ++ [tok]) err).2.1 = line0 + n) := by
  obtain ⟨rest, h1, h2, h3, h4, h5⟩ := ih
  refine ⟨tok :: rest, by simpa using h1, ?_, ?_, le_trans hl0 h4, ?_⟩
  · intro t ht
    rcases ht with _ | ht
    · exact ⟨htok, by omega, by rw [hline]; exact h4⟩
    · obtain ⟨a, b, c⟩ := h2 t (by assumption)
      exact ⟨a, le_trans hl0 b, c⟩
  · exact List.Pairwise.cons
      (fun t ht => by rw [hline]; exact (h2 t ht).2.1) h3
  · intro he
    obtain ⟨he1, he2⟩ := h5 he
    exact ⟨he1, by omega⟩

theorem inv_skip (cs' : List Char) (line0 line' : Nat) (acc : List Token)
    (err : Bool) (n : Nat)
    (ih : ∃ rest : List Token,
      (scanLoop cs' line' acc err).1 = acc ++ rest ∧
      (∀ t ∈ rest, t.token_type ≠ .eof ∧ line' ≤ t.line ∧
        t.line ≤ (scanLoop cs' line' acc err).2.1) ∧
      List.Pairwise (fun a b => a.line ≤ b.line) rest ∧
      line' ≤ (scanLoop cs' line' acc err).2.1 ∧
      ((scanLoop cs' line' acc err).2.2 = false →
        err = false ∧
        (scanLoop cs' line' acc err).2.1 = line' + cs'.count nl))
    (hl0 : line0 ≤ line') (hn : cs'.count nl + (line' - line0) = n) :
    ∃ rest : List Token,
      (scanLoop cs' line' acc err).1 = acc ++ rest ∧
      (∀ t ∈ rest, t.token_type ≠ .eof ∧ line0 ≤ t.line ∧
        t.line ≤ (scanLoop cs' line' acc err).2.1) ∧
      List.Pairwise (fun a b => a.line ≤ b.line) rest ∧
      line0 ≤ (scanLoop cs' line' acc err).2.1 ∧
      ((scanLoop cs' line' acc err).2.2 = false →
        err = false ∧
        (scanLoop cs' line' acc err).2.1 = line0 + n) := by
  obtain ⟨rest, h1, h2, h3, h4, h5⟩ := ih
  refine ⟨rest, h1, ?_, h3, le_trans hl0 h4, ?_⟩
  · intro t ht
    obtain ⟨a, b, c⟩ := h2 t ht
    exact ⟨a, le_trans hl0 b, c⟩
  · intro he
    obtain ⟨he1, he2⟩ := h5 he
    exact ⟨he1, by omega⟩

theorem inv_skiperr (cs' : List Char) (line0 : Nat) (acc : List Token)
    (err : Bool) (n : Nat)
    (ih : ∃ rest : List Token,
      (scanLoop cs' line0 acc true).1 = acc ++ rest ∧
      (∀ t ∈ rest, t.token_type ≠ .eof ∧ line0 ≤ t.line ∧
        t.line ≤ (scanLoop cs' line0 acc true).2.1) ∧
      List.Pairwise (fun a b => a.line ≤ b.line) rest ∧
      line0 ≤ (scanLoop cs' line0 acc true).2.1 ∧
      ((scanLoop cs' line0 acc true).2.2 = false →
        (true = false) ∧
        (scanLoop cs' line0 acc true).2.1 = line0 + cs'.count nl)) :
    ∃ rest : List Token,
      (scanLoop cs' line0 acc true).1 = acc ++ rest ∧
      (∀ t ∈ rest, t.token_type ≠ .eof ∧ line0 ≤ t.line ∧
        t.line ≤ (scanLoop cs' line0 acc true).2.1) ∧
      List.Pairwise (fun a b => a.line ≤ b.line) rest ∧
      line0 ≤ (scanLoop cs' line0 acc true).2.1 ∧
      ((scanLoop cs' line0 acc true).2.2 = false →
        err = false ∧
        (scanLoop cs' line0 acc true).2.1 = line0 + n) := by
  obtain ⟨rest, h1, h2, h3, h4, h5⟩ := ih
  exact ⟨rest, h1, h2, h3, h4, fun he => absurd (h5 he).1 (by simp)⟩

end Scan

namespace Scan

theorem count_cons_ne {c : Char} {l : List Char} (h : c ≠ nl) :
    (c :: l).count nl = l.count nl := by
  simp [List.count_cons, h]

theorem head_ne_count {l : List Char} {c : Char} (h : l.head? = some c)
    (hc : c ≠ nl) : l.count nl = (l.drop 1).count nl := by
  cases l with
  | nil => simp at h
  | cons d rest =>
      simp at h
      subst h
      simp [List.count_cons, hc]

end Scan

namespace Scan

theorem scanLoop_inv : ∀ (cs : List Char) (line : Nat) (acc : List Token)
    (err : Bool),
    ∃ rest : List Token,
      (scanLoop cs line acc err).1 = acc ++ rest ∧
      (∀ t ∈ rest, t.token_type ≠ .eof ∧ line ≤ t.line ∧
        t.line ≤ (scanLoop cs line acc err).2.1) ∧
      List.Pairwise (fun a b => a.line ≤ b.line) rest ∧
      line ≤ (scanLoop cs line acc err).2.1 ∧
      ((scanLoop cs line acc err).2.2 = false →
        err = false ∧
        (scanLoop cs line acc err).2.1 = line + cs.count nl) := by
  intro cs line acc err
  induction cs, line, acc, err using scanLoop.induct with
  | case1 line acc err =>
      rw [scanLoop]
      exact ⟨[], by simp, by simp, List.Pairwise.nil, le_rfl,
        fun he => ⟨he, by simp⟩⟩
  | case2 cs line acc err ih =>
      rw [scanLoop]
      exact inv_step cs line line acc _ err _ ih (fun h => nomatch h) rfl le_rfl
        (by rw [count_cons_ne (by decide)]; omega)
  | case3 cs line acc err ih =>
      rw [scanLoop]
      exact inv_step cs line line acc _ err _ ih (fun h => nomatch h) rfl le_rfl
        (by rw [count_cons_ne (by decide)]; omega)
  | case4 cs line acc err ih =>
      rw [scanLoop]
      exact inv_step cs line line acc _ err _ ih (fun h => nomatch h) rfl le_rfl
        (by rw [count_cons_ne (by decide)]; omega)
  | case5 cs line acc err ih =>
      rw [scanLoop]
      exact inv_step cs line line acc _ err _ ih (fun h => nomatch h) rfl le_rfl
        (by rw [count_cons_ne (by decide)]; omega)
  | case6 cs line acc err ih =>
      rw [scanLoop]
      exact inv_step cs line line acc _ err _ ih (fun h => nomatch h) rfl le_rfl
        (by rw [count_cons_ne (by decide)]; omega)
  | case7 cs line acc err ih =>
      rw [scanLoop]
      exact inv_step cs line line acc _ err _ ih (fun h => nomatch h) rfl le_rfl
        (by rw [count_cons_ne (by decide)]; omega)
  | case8 cs line acc err ih =>
      rw [scanLoop]
      exact inv_step cs line line acc _ err _ ih (fun h => nomatch h) rfl le_rfl
        (by rw [count_cons_ne (by decide)]; omega)
  | case9 cs line acc err ih =>
      rw [scanLoop]
      exact inv_step cs line line acc _ err _ ih (fun h => nomatch h) rfl le_rfl
        (by rw [count_cons_ne (by decide)]; omega)
  | case10 cs line acc err ih =>
      rw [scanLoop]
      exact inv_step cs line line acc _ err _ ih (fun h => nomatch h) rfl le_rfl
        (by rw [count_cons_ne (by decide)]; omega)
  | case11 cs line acc err ih =>
      rw [scanLoop]
      exact inv_step cs line line acc _ err _ ih (fun h => nomatch h) rfl le_rfl
        (by rw [count_cons_ne (by decide)]; omega)
  | case12 cs line acc err h ih =>
      rw [scanLoop, if_pos h]
      refine inv_step _ line line acc _ err _ ih (fun h => nomatch h) rfl le_rfl ?_
      rw [count_cons_ne (by decide), head_ne_count h (by decide)]
      omega
  | case13 cs line acc err h ih =>
      rw [scanLoop, if_neg h]
      exact inv_step cs line line acc _ err _ ih (fun h => nomatch h) rfl le_rfl
        (by rw [count_cons_ne (by decide)]; omega)
  | case14 cs line acc err h ih =>
      rw [scanLoop, if_pos h]
      refine inv_step _ line line acc _ err _ ih (fun h => nomatch h) rfl le_rfl ?_
      rw [count_cons_ne (by decide), head_ne_count h (by decide)]
      omega
  | case15 cs line acc err h ih =>
      rw [scanLoop, if_neg h]
      exact inv_step cs line line acc _ err _ ih (fun h => nomatch h) rfl le_rfl
        (by rw [count_cons_ne (by decide)]; omega)
  | case16 cs line acc err h ih =>
      rw [scanLoop, if_pos h]
      refine inv_step _ line line acc _ err _ ih (fun h => nomatch h) rfl le_rfl ?_
      rw [count_cons_ne (by decide), head_ne_count h (by decide)]
      omega
  | case17 cs line acc err h ih =>
      rw [scanLoop, if_neg h]
      exact inv_step cs line line acc _ err _ ih (fun h => nomatch h) rfl le_rfl
        (by rw [count_cons_ne (by decide)]; omega)
  | case18 cs line acc err h ih =>
      rw [scanLoop, if_pos h]
      refine inv_step _ line line acc _ err _ ih (fun h => nomatch h) rfl le_rfl ?_
      rw [count_cons_ne (by decide), head_ne_count h (by decide)]
      omega
  | case19 cs line acc err h ih =>
      rw [scanLoop, if_neg h]
      exact inv_step cs line line acc _ err _ ih (fun h => nomatch h) rfl le_rfl
        (by rw [count_cons_ne (by decide)]; omega)
  | case20 cs line acc err h ih =>
      rw [scanLoop, if_pos h]
      refine inv_skip _ line line acc err _ ih le_rfl ?_
      rw [count_cons_ne (by decide), head_ne_count h (by decide)]
      have hd : (List.drop 1 cs).drop (commentLen (List.drop 1 cs)) =
          List.drop (1 + commentLen (List.drop 1 cs)) cs := by
        rw [List.drop_drop]
      rw [← hd, ← commentLen_count (List.drop 1 cs)]
      omega
  | case21 cs line acc err h ih =>
      rw [scanLoop, if_neg h]
      exact inv_step cs line line acc _ err _ ih (fun h => nomatch h) rfl le_rfl
        (by rw [count_cons_ne (by decide)]; omega)
  | case22 cs line acc err content line' h ih =>
      rw [scanLoop, if_pos h]
      refine inv_step _ line (line + (strContents cs).count nl) acc _ err _
        ih (fun h => nomatch h) rfl (by omega) ?_
      rw [count_cons_ne (by decide), strContents_count cs h]
      omega
  | case23 cs line acc err h =>
      rw [scanLoop, if_neg h]
      refine ⟨[], by simp, by simp, List.Pairwise.nil, ?_, fun he => ?_⟩
      · show line ≤ line + (strContents cs).count nl
        omega
      · simp at he
  | case24 cs line acc err ih =>
      rw [scanLoop]
      refine inv_skip cs line (line + 1) acc err _ ih (by omega) ?_
      have hcc : ('\n' :: cs).count nl = cs.count nl + 1 := by
        rw [List.count_cons]
        norm_num
        rfl
      omega
  | case25 cs line acc err c m1 m2 m3 m4 m5 m6 m7 m8 m9 m10 m11 m12 m13
      m14 m15 m16 m17 hdig ds hcond ds2 ih =>
      rw [scanLoop]
      all_goals try assumption
      rw [if_pos hdig, if_pos hcond]
      refine inv_step _ line line acc _ err _ ih (fun h => nomatch h) rfl le_rfl ?_
      have hb := hcond
      rw [Bool.and_eq_true] at hb
      have hdot : (List.drop (digitRun cs).length cs).head? = some '.' :=
        of_decide_eq_true hb.1
      rw [count_cons_ne (digit_ne_nl hdig), digitRun_count cs,
        head_ne_count hdot (by decide)]
      have hd1 : (List.drop (digitRun cs).length cs).drop 1 =
          List.drop ((digitRun cs).length + 1) cs := by
        rw [List.drop_drop]
      rw [hd1, digitRun_count (List.drop ((digitRun cs).length + 1) cs)]
      have hd2 : (List.drop ((digitRun cs).length + 1) cs).drop
            (digitRun (List.drop ((digitRun cs).length + 1) cs)).length =
          List.drop ((digitRun cs).length + 1 +
            (digitRun (List.drop ((digitRun cs).length + 1) cs)).length)
            cs := by
        rw [List.drop_drop]
      rw [hd2]
      omega
  | case26 cs line acc err c m1 m2 m3 m4 m5 m6 m7 m8 m9 m10 m11 m12 m13
      m14 m15 m16 m17 hdig ds hcond ih =>
      rw [scanLoop]
      all_goals try assumption
      rw [if_pos hdig, if_neg hcond]
      refine inv_step _ line line acc _ err _ ih (fun h => nomatch h) rfl le_rfl ?_
      rw [count_cons_ne (digit_ne_nl hdig), digitRun_count cs]
      omega
  | case27 cs line acc err c m1 m2 m3 m4 m5 m6 m7 m8 m9 m10 m11 m12 m13
      m14 m15 m16 m17 hnd hws ih =>
      rw [scanLoop]
      all_goals try assumption
      rw [if_neg hnd, if_pos hws]
      refine inv_skip cs line line acc err _ ih le_rfl ?_
      rw [count_cons_ne (fun hc => m17 hc)]
      omega
  | case28 cs line acc err c m1 m2 m3 m4 m5 m6 m7 m8 m9 m10 m11 m12 m13
      m14 m15 m16 m17 hnd hnw ih =>
      rw [scanLoop]
      all_goals try assumption
      rw [if_neg hnd, if_neg hnw]
      exact inv_skiperr cs line acc err _ ih

end Scan

namespace Scan

/-- C9 counterexample: the input consisting of a single newline scans
without error, yet its `Eof` token carries line 2 while the last (and only)
character, the newline, sits on line 1 — the `Eof` line is the final line
counter, not the line of the last character. -/
theorem claim_C9_counterexample :
    tokenize ['\n'] = ([⟨.eof, "", none, 2⟩], false) ∧
    charLine ['\n'] 0 = 1 ∧ (2 : Nat) ≠ 1 := by
  refine ⟨?_, rfl, by decide⟩
  unfold tokenize
  rw [scanLoop, scanLoop]
  rfl

/-- C9 amended: every non-erroring scanner run ends in exactly one `Eof`
token with empty lexeme whose line is one plus the number of newline
characters in the input (which equals the line of the last character
whenever the input does not end in a newline), and the `line` fields are
monotonically non-decreasing across the token list. -/
theorem claim_C9_amended :
    (∀ (cs : List Char) (toks : List Token),
      tokenize cs = (toks, false) →
      ∃ body, toks = body ++ [⟨.eof, "", none, 1 + cs.count nl⟩] ∧
        (∀ t ∈ body, t.token_type ≠ .eof) ∧
        List.Pairwise (fun a b => a.line ≤ b.line) toks) ∧
    (∀ cs : List Char, cs ≠ [] → cs.getLast? ≠ some '\n' →
      1 + cs.count nl = charLine cs (cs.length - 1)) := by
  refine ⟨fun cs toks h => ?_, fun cs hne hlast => ?_⟩
  · obtain ⟨rest, h1, h2, h3, h4, h5⟩ := scanLoop_inv cs 1 [] false
    have ht : tokenize cs =
        ((scanLoop cs 1 [] false).1 ++
          [⟨.eof, "", none, (scanLoop cs 1 [] false).2.1⟩],
         (scanLoop cs 1 [] false).2.2) := rfl
    rw [ht] at h
    injection h with hta htb
    obtain ⟨hf, hl⟩ := h5 htb
    simp only [List.nil_append] at h1
    refine ⟨rest, ?_, fun t ht' => (h2 t ht').1, ?_⟩
    · rw [← hta, h1, hl]
    · rw [← hta, h1]
      rw [List.pairwise_append]
      refine ⟨h3, List.pairwise_singleton _ _, ?_⟩
      intro a ha b hb
      simp at hb
      subst hb
      exact (h2 a ha).2.2
  · have hd : cs.dropLast ++ [cs.getLast hne] = cs :=
      List.dropLast_append_getLast hne
    have hgl : cs.getLast hne ≠ '\n' := by
      intro hc
      exact hlast (by rw [← hc, List.getLast?_eq_getLast cs hne])
    unfold charLine
    have htake : cs.take (cs.length - 1) = cs.dropLast :=
      (List.dropLast_eq_take cs).symm
    rw [htake]
    conv_lhs => rw [← hd]
    have : ('\n' : Char) = nl := rfl
    rw [List.count_append]
    simp [List.count_singleton, this]
    intro hc
    exact absurd (this ▸ hc) hgl

end Scan

namespace Scan

/-- C9 witness: the error-free scan of `(;` ends in exactly one `Eof` token
on line 1 with non-decreasing lines, and for the newline-free input `(` the
final line equals the line of the last character. -/
theorem claim_C9_witness :
    (∃ body,
      ([⟨TokenType.leftParen, "(", none, 1⟩,
        ⟨TokenType.semiColon, ";", none, 1⟩,
        ⟨TokenType.eof, "", none, 1⟩] : List Token) =
        body ++ [⟨TokenType.eof, "", none,
          1 + List.count nl ['(', ';']⟩] ∧
      (∀ t ∈ body, t.token_type ≠ TokenType.eof) ∧
      List.Pairwise (fun a b => a.line ≤ b.line)
        ([⟨TokenType.leftParen, "(", none, 1⟩,
          ⟨TokenType.semiColon, ";", none, 1⟩,
          ⟨TokenType.eof, "", none, 1⟩] : List Token)) ∧
    1 + List.count nl ['('] = charLine ['('] ((['('] : List Char).length - 1) :=
  ⟨claim_C9_amended.1 ['(', ';']
      [⟨TokenType.leftParen, "(", none, 1⟩,
       ⟨TokenType.semiColon, ";", none, 1⟩,
       ⟨TokenType.eof, "", none, 1⟩]
      (by unfold tokenize; rw [scanLoop, scanLoop, scanLoop]; rfl),
   claim_C9_amended.2 ['('] (by decide) (by decide)⟩

end Scan
